import Mathlib

/-!
Verification of the concurrent lookup table (`include/concurrent_lookup_table.h`).

The development is a shallow sequential embedding of the data structure:

* `bucket_type`, `table_type` and `concurrent_lookup_table` mirror the three C++
  classes field by field (mutexes carry no data, so the mutex vector is modelled
  by its length `m_locks`, and the atomic flag `m_resize_in_process` by a `Bool`).
* `size_t` values are modelled as `Nat`.  None of the arithmetic in the source can
  overflow 2^64 on inputs a real process can hold, so no explicit `% 2^64` is needed;
  the one decrement (`--m_size` in `bucket_type::remove`) is guarded by a successful
  find, and the invariant `m_size = m_data.length` proved below shows it never
  underflows on any reachable state.
* The constructor initialisation `m_buckets{buckets_count}` resolves to
  `std::vector<bucket_type>(size_type)`, which value-initialises each element;
  value-initialising `bucket_type` (whose default constructor is implicitly
  defined, not user-provided) zero-initialises the object first, so every
  `m_size` starts at 0.  The model constructs buckets as `{ m_data := [], m_size := 0 }`.
* `m_budget` is computed in the source as `std::size_t(std::ceil(float(buckets_count) / concurrency))`.
  This is *binary32* arithmetic: both operands are converted to `float` and the
  division is a `float` division.  `roundF32` below models IEEE-754 binary32
  rounding (round to nearest, ties to even) of a rational, exact for every value
  in the normal range; all values reachable from `size_t` inputs (magnitudes
  between 2^-64 and 2^64) are in that range, so neither overflow nor subnormals
  need to be modelled.  `std::ceil` on a `float` and the conversion back to
  `size_t` are exact and are modelled by `Int.ceil` and `Int.toNat`.
* The concurrency control (snapshot / lock / re-check retry loops, `multiple_lock`)
  has no effect on the sequential semantics of one operation: each retry loop body
  runs exactly once.  The functions below are the loop bodies.

Point operations are `add_or_update`, `remove`, `get_value`; `resize` rebuilds the
table exactly as the source does (fresh `table_type`, then re-insertion of every
entry of every bucket in order).  `Reachable` captures the states produced by any
sequence of operations starting from the constructor.
-/

/-! ## The binary32 model for the budget computation -/

/-- Fuel-driven binary logarithm on `Nat`; `natLog2fuel fuel n` is `⌊log₂ n⌋`
whenever `1 ≤ n ≤ fuel` (the fuel only bounds the recursion depth). -/
def natLog2fuel : Nat → Nat → Nat
  | 0, _ => 0
  | fuel+1, n => if n ≤ 1 then 0 else natLog2fuel fuel (n / 2) + 1

/-- `⌊log₂ n⌋` for `n ≥ 1` (and `0` for `n = 0`). -/
def natLog2 (n : Nat) : Nat := natLog2fuel n n

/-- First candidate for `⌊log₂ x⌋` of a positive rational: difference of the
bit lengths of numerator and denominator.  The true value is this or one less. -/
def floorLog2d (x : ℚ) : ℤ := (natLog2 x.num.toNat : ℤ) - (natLog2 x.den : ℤ)

/-- `⌊log₂ x⌋` for a positive rational `x`. -/
def floorLog2 (x : ℚ) : ℤ :=
  if x < (2:ℚ) ^ floorLog2d x then floorLog2d x - 1 else floorLog2d x

/-- Round a rational to an integer, to nearest, ties to even (IEEE-754 default). -/
def rne (y : ℚ) : ℤ :=
  if y - (⌊y⌋ : ℚ) < 1/2 then ⌊y⌋
  else if (1:ℚ)/2 < y - (⌊y⌋ : ℚ) then ⌊y⌋ + 1
  else if ⌊y⌋ % 2 = 0 then ⌊y⌋ else ⌊y⌋ + 1

/-- The binary32 value nearest to the rational `x` (ties to even): the
significand is rounded to 24 bits at the scale fixed by `⌊log₂ x⌋`.
Exact for the whole normal range of binary32, which covers every value the
source can feed it; nonpositive inputs (never produced by the source) map to 0. -/
def roundF32 (x : ℚ) : ℚ :=
  if x ≤ 0 then 0
  else (rne (x / 2 ^ (floorLog2 x - 23)) : ℚ) * 2 ^ (floorLog2 x - 23)

/-- Model of `std::size_t(std::ceil(float(buckets_count) / concurrency))` from
`table_type::table_type`: both `size_t` operands are converted to `float`,
divided as `float`s, and the (exactly representable) ceiling is converted back. -/
def budgetF32 (buckets_count concurrency : Nat) : Nat :=
  (⌈roundF32 (roundF32 (buckets_count : ℚ) / roundF32 (concurrency : ℚ))⌉).toNat

theorem natLog2fuel_spec (fuel : Nat) : ∀ n, 1 ≤ n → n ≤ fuel →
    2 ^ natLog2fuel fuel n ≤ n ∧ n < 2 ^ (natLog2fuel fuel n + 1) := by
  induction fuel with
  | zero => intro n h1 h2; omega
  | succ fuel ih =>
    intro n h1 h2
    rw [natLog2fuel]
    by_cases hn : n ≤ 1
    · rw [if_pos hn]
      simp only [pow_zero, pow_one]
      omega
    · rw [if_neg hn]
      have h3 : 1 ≤ n / 2 := by omega
      have h4 : n / 2 ≤ fuel := by omega
      obtain ⟨ha, hb⟩ := ih (n / 2) h3 h4
      have e1 : 2 ^ (natLog2fuel fuel (n / 2) + 1) = 2 * 2 ^ natLog2fuel fuel (n / 2) := by
        rw [pow_succ]; ring
      have e2 : 2 ^ (natLog2fuel fuel (n / 2) + 1 + 1) = 2 * 2 ^ (natLog2fuel fuel (n / 2) + 1) := by
        rw [pow_succ _ (natLog2fuel fuel (n / 2) + 1)]; ring
      omega

theorem natLog2_spec (n : Nat) (h : 1 ≤ n) :
    2 ^ natLog2 n ≤ n ∧ n < 2 ^ (natLog2 n + 1) :=
  natLog2fuel_spec n n h le_rfl

theorem floorLog2_aux (a b : ℕ) (ha : 1 ≤ a) (hb : 1 ≤ b) :
    (2:ℚ) ^ ((natLog2 a : ℤ) - (natLog2 b : ℤ) - 1) ≤ (a:ℚ) / (b:ℚ)
    ∧ (a:ℚ) / (b:ℚ) < 2 ^ ((natLog2 a : ℤ) - (natLog2 b : ℤ) + 1) := by
  obtain ⟨ha1, ha2⟩ := natLog2_spec a ha
  obtain ⟨hb1, hb2⟩ := natLog2_spec b hb
  have hA1 : ((2:ℚ)) ^ (natLog2 a) ≤ (a : ℚ) := by exact_mod_cast ha1
  have hA2 : ((a : ℕ) : ℚ) < 2 ^ (natLog2 a + 1) := by exact_mod_cast ha2
  have hB1 : ((2:ℚ)) ^ (natLog2 b) ≤ (b : ℚ) := by exact_mod_cast hb1
  have hB2 : ((b : ℕ) : ℚ) < 2 ^ (natLog2 b + 1) := by exact_mod_cast hb2
  have hbq : (0:ℚ) < (b : ℚ) := by exact_mod_cast hb
  have h2 : (2:ℚ) ≠ 0 := by norm_num
  constructor
  · have he : (2:ℚ) ^ ((natLog2 a : ℤ) - (natLog2 b : ℤ) - 1)
        = 2 ^ (natLog2 a) / 2 ^ (natLog2 b + 1) := by
      rw [← zpow_natCast (2:ℚ) (natLog2 a), ← zpow_natCast (2:ℚ) (natLog2 b + 1),
        ← zpow_sub₀ h2]
      congr 1
      push_cast; ring
    rw [he, div_le_div_iff₀ (by positivity) hbq]
    calc (2:ℚ) ^ natLog2 a * (b : ℚ)
        ≤ (a : ℚ) * (b : ℚ) := mul_le_mul_of_nonneg_right hA1 (by positivity)
      _ ≤ (a : ℚ) * 2 ^ (natLog2 b + 1) := mul_le_mul_of_nonneg_left hB2.le (by positivity)
  · have he : (2:ℚ) ^ ((natLog2 a : ℤ) - (natLog2 b : ℤ) + 1)
        = 2 ^ (natLog2 a + 1) / 2 ^ (natLog2 b) := by
      rw [← zpow_natCast (2:ℚ) (natLog2 a + 1), ← zpow_natCast (2:ℚ) (natLog2 b),
        ← zpow_sub₀ h2]
      congr 1
      push_cast; ring
    rw [he, div_lt_div_iff₀ hbq (by positivity)]
    calc (a : ℚ) * 2 ^ natLog2 b
        < 2 ^ (natLog2 a + 1) * 2 ^ natLog2 b := mul_lt_mul_of_pos_right hA2 (by positivity)
      _ ≤ 2 ^ (natLog2 a + 1) * (b : ℚ) := mul_le_mul_of_nonneg_left hB1 (by positivity)

theorem floorLog2_spec (x : ℚ) (hx : 0 < x) :
    (2:ℚ) ^ floorLog2 x ≤ x ∧ x < 2 ^ (floorLog2 x + 1) := by
  have hnum : 0 < x.num := Rat.num_pos.mpr hx
  have hden : 0 < x.den := x.den_pos
  have ha : 1 ≤ x.num.toNat := by omega
  have hcast : ((x.num.toNat : ℕ) : ℚ) = (x.num : ℚ) := by
    have h := Int.toNat_of_nonneg hnum.le
    exact_mod_cast congrArg (fun z : ℤ => (z : ℚ)) h
  have hx_eq : ((x.num.toNat : ℕ) : ℚ) / ((x.den : ℕ) : ℚ) = x := by
    rw [hcast, Rat.num_div_den]
  obtain ⟨hlo, hup⟩ := floorLog2_aux x.num.toNat x.den ha hden
  rw [hx_eq] at hlo hup
  have hd : floorLog2d x = (natLog2 x.num.toNat : ℤ) - (natLog2 x.den : ℤ) := rfl
  rw [floorLog2]
  by_cases hc : x < (2:ℚ) ^ floorLog2d x
  · rw [if_pos hc]
    constructor
    · rw [hd]; exact hlo
    · rw [sub_add_cancel]; exact hc
  · rw [if_neg hc]
    refine ⟨not_lt.mp hc, ?_⟩
    rw [hd]; exact hup

theorem floor_le_rne (y : ℚ) : ⌊y⌋ ≤ rne y := by
  rw [rne]
  split_ifs <;> omega

theorem roundF32_pos (x : ℚ) (hx : 0 < x) : 0 < roundF32 x := by
  rw [roundF32, if_neg (not_le.mpr hx)]
  have h1 : (2:ℚ) ^ floorLog2 x ≤ x := (floorLog2_spec x hx).1
  have h2 : (2:ℚ) ≠ 0 := by norm_num
  have hy : (2:ℚ) ^ (23:ℤ) ≤ x / 2 ^ (floorLog2 x - 23) := by
    have he : (2:ℚ) ^ (23:ℤ) = 2 ^ floorLog2 x / 2 ^ (floorLog2 x - 23) := by
      rw [← zpow_sub₀ h2]
      congr 1
      ring
    rw [he]
    gcongr
  have hfl : (2:ℤ) ^ (23:ℕ) ≤ ⌊x / 2 ^ (floorLog2 x - 23)⌋ := by
    apply Int.le_floor.mpr
    calc (((2:ℤ) ^ (23:ℕ) : ℤ) : ℚ) = (2:ℚ) ^ (23:ℤ) := by push_cast; norm_num
      _ ≤ x / 2 ^ (floorLog2 x - 23) := hy
  have hrne : 0 < rne (x / 2 ^ (floorLog2 x - 23)) := by
    have := floor_le_rne (x / 2 ^ (floorLog2 x - 23))
    have hp : (0:ℤ) < 2 ^ (23:ℕ) := by positivity
    omega
  have hc : (0:ℚ) < (rne (x / 2 ^ (floorLog2 x - 23)) : ℚ) := by exact_mod_cast hrne
  exact mul_pos hc (zpow_pos (by norm_num) _)

theorem rne_eq_of_lt_half (y : ℚ) (f : ℤ) (hf : ⌊y⌋ = f) (h : y - (f:ℚ) < 1/2) :
    rne y = f := by
  rw [rne, hf, if_pos h]

theorem rne_eq_of_tie_even (y : ℚ) (f : ℤ) (hf : ⌊y⌋ = f) (h : y - (f:ℚ) = 1/2)
    (he : f % 2 = 0) : rne y = f := by
  have h1 : ¬ (y - (f:ℚ) < 1/2) := by rw [h]; simp
  have h2 : ¬ ((1:ℚ)/2 < y - (f:ℚ)) := by rw [h]; simp
  rw [rne, hf, if_neg h1, if_neg h2, if_pos he]

theorem floorLog2_eq_self (x : ℚ) (d : ℤ) (hd : floorLog2d x = d)
    (h : ¬ x < (2:ℚ) ^ d) : floorLog2 x = d := by
  rw [floorLog2, hd, if_neg h]

theorem natLog2_one : natLog2 1 = 0 := by decide

theorem natLog2_16777217 : natLog2 16777217 = 24 := by decide

theorem natLog2_16777216 : natLog2 16777216 = 24 := by decide

theorem roundF32_nat_one : roundF32 ((1 : ℕ) : ℚ) = 1 := by
  have hd : floorLog2d ((1 : ℕ) : ℚ) = 0 := by
    rw [floorLog2d, Rat.num_natCast, Rat.den_natCast, Int.toNat_natCast]
    norm_num [natLog2_one]
  have hfl : floorLog2 ((1 : ℕ) : ℚ) = 0 := by
    apply floorLog2_eq_self _ _ hd
    push_cast
    norm_num
  have hf : ⌊((1 : ℕ) : ℚ) / 2 ^ ((0:ℤ) - 23)⌋ = 8388608 := by
    rw [Int.floor_eq_iff]
    constructor
    · push_cast; norm_num
    · push_cast; norm_num
  have hr : rne (((1 : ℕ) : ℚ) / 2 ^ ((0:ℤ) - 23)) = 8388608 := by
    apply rne_eq_of_lt_half _ _ hf
    push_cast; norm_num
  rw [roundF32, if_neg (by push_cast; norm_num), hfl, hr]
  push_cast; norm_num

theorem roundF32_nat_16777217 : roundF32 ((16777217 : ℕ) : ℚ) = 16777216 := by
  have hd : floorLog2d ((16777217 : ℕ) : ℚ) = 24 := by
    rw [floorLog2d, Rat.num_natCast, Rat.den_natCast, Int.toNat_natCast, natLog2_16777217]
    norm_num [natLog2_one]
  have hfl : floorLog2 ((16777217 : ℕ) : ℚ) = 24 := by
    apply floorLog2_eq_self _ _ hd
    push_cast
    norm_num
  have hf : ⌊((16777217 : ℕ) : ℚ) / 2 ^ ((24:ℤ) - 23)⌋ = 8388608 := by
    rw [Int.floor_eq_iff]
    constructor
    · push_cast; norm_num
    · push_cast; norm_num
  have hr : rne (((16777217 : ℕ) : ℚ) / 2 ^ ((24:ℤ) - 23)) = 8388608 := by
    apply rne_eq_of_tie_even _ _ hf
    · push_cast; norm_num
    · decide
  rw [roundF32, if_neg (by push_cast; norm_num), hfl, hr]
  push_cast; norm_num

theorem roundF32_16777216 : roundF32 (16777216 : ℚ) = 16777216 := by
  have hd : floorLog2d (16777216 : ℚ) = 24 := by
    rw [floorLog2d]
    norm_num [natLog2_16777216, natLog2_one, show Int.toNat 16777216 = 16777216 from rfl]
  have hfl : floorLog2 (16777216 : ℚ) = 24 := by
    apply floorLog2_eq_self _ _ hd
    norm_num
  have hf : ⌊(16777216 : ℚ) / 2 ^ ((24:ℤ) - 23)⌋ = 8388608 := by
    rw [Int.floor_eq_iff]
    constructor
    · push_cast; norm_num
    · push_cast; norm_num
  have hr : rne ((16777216 : ℚ) / 2 ^ ((24:ℤ) - 23)) = 8388608 := by
    apply rne_eq_of_lt_half _ _ hf
    push_cast; norm_num
  rw [roundF32, if_neg (by norm_num), hfl, hr]
  push_cast; norm_num

/-- The budget the source stores for 16777217 = 2^24 + 1 buckets and one shard:
`float(16777217)` rounds (tie to even) to 2^24, so the stored budget is 16777216,
one less than the exact ceiling `⌈16777217 / 1⌉`. -/
theorem budgetF32_16777217_1 : budgetF32 16777217 1 = 16777216 := by
  rw [budgetF32, roundF32_nat_16777217, roundF32_nat_one, div_one, roundF32_16777216]
  norm_num [show Int.toNat 16777216 = 16777216 from rfl]

theorem budgetF32_pos (buckets_count concurrency : Nat)
    (hb : 1 ≤ buckets_count) (hc : 1 ≤ concurrency) : 1 ≤ budgetF32 buckets_count concurrency := by
  have h1 : 0 < roundF32 (buckets_count : ℚ) :=
    roundF32_pos _ (by exact_mod_cast Nat.pos_of_ne_zero (by omega))
  have h2 : 0 < roundF32 (concurrency : ℚ) :=
    roundF32_pos _ (by exact_mod_cast Nat.pos_of_ne_zero (by omega))
  have h3 : 0 < roundF32 (roundF32 (buckets_count : ℚ) / roundF32 (concurrency : ℚ)) :=
    roundF32_pos _ (div_pos h1 h2)
  have h4 : 0 < ⌈roundF32 (roundF32 (buckets_count : ℚ) / roundF32 (concurrency : ℚ))⌉ :=
    Int.ceil_pos.mpr h3
  rw [budgetF32]
  omega

/-! ## The data model -/

/-- Model of the C++ `bucket_type`: the entry chain `m_data` (a `std::list` of
key/value pairs, kept in insertion order) and the `m_size` counter. -/
structure bucket_type (K V : Type) where
  m_data : List (K × V)
  m_size : Nat

variable {K V : Type} [DecidableEq K]

/-- `bucket_type::find_entry`: the first entry whose key compares equal to `key`
(the source returns an iterator; the model returns the entry it points at,
`none` standing for the end iterator). -/
def bucket_type.find_entry (b : bucket_type K V) (key : K) : Option (K × V) :=
  b.m_data.find? (fun item => decide (item.1 = key))

/-- `bucket_type::get_value`: copy of the value of the found entry, or absent. -/
def bucket_type.get_value (b : bucket_type K V) (key : K) : Option V :=
  (b.find_entry key).map (fun e => e.2)

/-- Erase the first entry with the given key (the element `find_entry` points at). -/
def eraseFirst (key : K) : List (K × V) → List (K × V)
  | [] => []
  | e :: es => if e.1 = key then es else e :: eraseFirst key es

/-- `bucket_type::remove`: erase the found entry and decrement `m_size`; no-op when
the key is absent.  (The C++ `--m_size` is a `size_t` decrement; on every reachable
state `m_size = m_data.length ≥ 1` when the branch is taken, so it never wraps.) -/
def bucket_type.remove (b : bucket_type K V) (key : K) : bucket_type K V :=
  if (b.find_entry key).isSome then
    { m_data := eraseFirst key b.m_data, m_size := b.m_size - 1 }
  else b

/-- Overwrite the value of the first entry with the given key (in place:
`found_entry->second = value`). -/
def setFirst (key : K) (value : V) : List (K × V) → List (K × V)
  | [] => []
  | e :: es => if e.1 = key then (e.1, value) :: es else e :: setFirst key value es

/-- `bucket_type::add_or_update`: append a fresh entry and increment `m_size` when
the key is absent, otherwise overwrite the found entry's value; returns the new
bucket together with the returned `m_size`. -/
def bucket_type.add_or_update (b : bucket_type K V) (key : K) (value : V) :
    bucket_type K V × Nat :=
  if (b.find_entry key).isSome then
    ({ m_data := setFirst key value b.m_data, m_size := b.m_size }, b.m_size)
  else
    ({ m_data := b.m_data ++ [(key, value)], m_size := b.m_size + 1 }, b.m_size + 1)

/-- A value-initialised bucket (see the header comment: `m_buckets{buckets_count}`
value-initialises, which zero-initialises `m_size`). -/
def emptyBucket : bucket_type K V := { m_data := [], m_size := 0 }

/-- Model of the C++ `table_type` (one shard state): the bucket vector, the mutex
vector (represented by its length — mutexes carry no data), the budget and the
hasher.  `Hash` is a stateless function-object type in the source, so every
default-constructed instance is the same function; the model stores it. -/
structure table_type (K V : Type) where
  m_buckets : List (bucket_type K V)
  m_locks : Nat
  m_budget : Nat
  hasher : K → Nat

/-- The return type of `table_type::add_or_update`. -/
structure table_size where
  buckets_size : Nat
  current_bucket_size : Nat

/-- `table_type::table_type(concurrency, buckets_count)`: `buckets_count`
value-initialised buckets, `concurrency` mutexes, and the budget
`std::size_t(std::ceil(float(buckets_count) / concurrency))`. -/
def table_type.create (hasher : K → Nat) (concurrency buckets_count : Nat) :
    table_type K V :=
  { m_buckets := List.replicate buckets_count emptyBucket
  , m_locks := concurrency
  , m_budget := budgetF32 buckets_count concurrency
  , hasher := hasher }

/-- `table_type::get_bucket_index`: `hasher(key) % m_buckets.size()`. -/
def table_type.get_bucket_index (t : table_type K V) (key : K) : Nat :=
  t.hasher key % t.m_buckets.length

/-- `table_type::get_mutex_index`: `get_bucket_index(key) / m_budget`.  This is the
index used by `table_type::lock` to subscript the mutex vector. -/
def table_type.get_mutex_index (t : table_type K V) (key : K) : Nat :=
  t.get_bucket_index key / t.m_budget

/-- `table_type::get_bucket`: `m_buckets[get_bucket_index(key)]`.  The C++ indexing
is unchecked; whenever the table has at least one bucket the index is in bounds
(`h % B < B`), so the default is never consulted on a reachable state. -/
def table_type.get_bucket (t : table_type K V) (key : K) : bucket_type K V :=
  t.m_buckets.getD (t.get_bucket_index key) emptyBucket

/-- `table_type::get_value`. -/
def table_type.get_value (t : table_type K V) (key : K) : Option V :=
  (t.get_bucket key).get_value key

/-- `table_type::remove`. -/
def table_type.remove (t : table_type K V) (key : K) : table_type K V :=
  { t with m_buckets :=
      t.m_buckets.set (t.get_bucket_index key) ((t.get_bucket key).remove key) }

/-- `table_type::add_or_update`: mutates the key's bucket and returns
`table_size{m_buckets.size(), <the bucket's returned size>}`. -/
def table_type.add_or_update (t : table_type K V) (key : K) (value : V) :
    table_type K V × table_size :=
  ({ t with m_buckets :=
       t.m_buckets.set (t.get_bucket_index key) ((t.get_bucket key).add_or_update key value).1 },
   { buckets_size := t.m_buckets.length
   , current_bucket_size := ((t.get_bucket key).add_or_update key value).2 })

/-- `table_type::get_buckets_size`. -/
def table_type.get_buckets_size (t : table_type K V) : Nat := t.m_buckets.length

/-- `table_type::get_locks_size`. -/
def table_type.get_locks_size (t : table_type K V) : Nat := t.m_locks

/-- `concurrent_lookup_table::MAX_LOCK_NUMBER`. -/
def MAX_LOCK_NUMBER : Nat := 1024

/-- Model of the C++ `concurrent_lookup_table` (the `MaxLoadFactor` template
parameter is passed to the operations that read it).  `m_resize_in_process` is the
atomic flag, clear at construction (the spec's reading of the `= false`
initialiser). -/
structure concurrent_lookup_table (K V : Type) where
  m_table : table_type K V
  m_grow_mutexes_on_resize : Bool
  m_resize_in_process : Bool

/-- `concurrent_lookup_table::concurrent_lookup_table(concurrency, capacity,
grow_concurrency_on_resize)`: the shard state gets
`std::max(capacity, concurrency)` buckets and `concurrency` mutexes. -/
def concurrent_lookup_table.create (hasher : K → Nat) (concurrency capacity : Nat)
    (grow_concurrency_on_resize : Bool) : concurrent_lookup_table K V :=
  { m_table := table_type.create hasher concurrency (max capacity concurrency)
  , m_grow_mutexes_on_resize := grow_concurrency_on_resize
  , m_resize_in_process := false }

/-- The copy loop of `concurrent_lookup_table::resize`: insert every entry into the
fresh table via `table_type::add_or_update`, in bucket order then chain order. -/
def insertAll (t : table_type K V) (entries : List (K × V)) : table_type K V :=
  entries.foldl (fun acc e => (acc.add_or_update e.1 e.2).1) t

/-- `concurrent_lookup_table::resize`.  The `new_size` parameter is ignored by the
source too: the body recomputes the capacity as `2 * buckets + 1` from the table
it locked.  The new mutex count is `min(2 * locks, MAX_LOCK_NUMBER)` when
`m_grow_mutexes_on_resize` is set, else unchanged.  Publishing the new table
clears the `m_resize_in_process` flag. -/
def concurrent_lookup_table.resize (lt : concurrent_lookup_table K V)
    (new_size : Nat) : concurrent_lookup_table K V :=
  { lt with
    m_table :=
      insertAll
        (table_type.create lt.m_table.hasher
          (if lt.m_grow_mutexes_on_resize
            then min (2 * lt.m_table.get_locks_size) MAX_LOCK_NUMBER
            else lt.m_table.get_locks_size)
          (2 * lt.m_table.get_buckets_size + 1))
        ((lt.m_table.m_buckets.map (fun b => b.m_data)).flatten)
  , m_resize_in_process := false }

/-- `concurrent_lookup_table::get_value` (no lock is taken by the source). -/
def concurrent_lookup_table.get_value (lt : concurrent_lookup_table K V) (key : K) :
    Option V :=
  lt.m_table.get_value key

/-- `concurrent_lookup_table::add_or_update`: the loop body runs once in the
sequential semantics.  After the bucket update, if the returned chain length
exceeds `MaxLoadFactor` the code runs `atomic_flag_test_and_set` on
`m_resize_in_process` (`&&` short-circuits, so the flag is touched only when the
load test passes): the flag becomes set, and `should_resize` is the *previous*
flag value conjoined with the load test.  A resize (to `2 * buckets_size + 1`,
an argument the resize body ignores) runs only when `should_resize` is true. -/
def concurrent_lookup_table.add_or_update (MaxLoadFactor : Nat)
    (lt : concurrent_lookup_table K V) (key : K) (value : V) :
    concurrent_lookup_table K V :=
  let res := lt.m_table.add_or_update key value
  if MaxLoadFactor < res.2.current_bucket_size then
    let tripped : concurrent_lookup_table K V :=
      { lt with m_table := res.1, m_resize_in_process := true }
    if lt.m_resize_in_process then tripped.resize (2 * res.2.buckets_size + 1)
    else tripped
  else
    { lt with m_table := res.1 }

/-- `concurrent_lookup_table::remove`. -/
def concurrent_lookup_table.remove (lt : concurrent_lookup_table K V) (key : K) :
    concurrent_lookup_table K V :=
  { lt with m_table := lt.m_table.remove key }

/-- The public operations of the table, for stating trace properties. -/
inductive Op (K V : Type) where
  | put (key : K) (value : V)
  | erase (key : K)
  | resize

/-- Run one public operation (an explicit `Op.resize` models the call the source
makes from `add_or_update`, with the same — ignored — argument shape). -/
def runOp (MaxLoadFactor : Nat) (lt : concurrent_lookup_table K V) :
    Op K V → concurrent_lookup_table K V
  | Op.put k v => concurrent_lookup_table.add_or_update MaxLoadFactor lt k v
  | Op.erase k => lt.remove k
  | Op.resize => lt.resize (2 * lt.m_table.get_buckets_size + 1)

/-- Run a list of public operations left to right. -/
def run (MaxLoadFactor : Nat) (lt : concurrent_lookup_table K V)
    (ops : List (Op K V)) : concurrent_lookup_table K V :=
  ops.foldl (runOp MaxLoadFactor) lt

/-- `op` never modifies key `k`. -/
def untouches : Op K V → K → Prop
  | Op.put k1 _, k => k1 ≠ k
  | Op.erase k1, k => k1 ≠ k
  | Op.resize, _ => True

/-- The table states reachable from a constructor call with at least one shard by
any sequence of public operations. -/
inductive Reachable (MaxLoadFactor : Nat) :
    concurrent_lookup_table K V → Prop where
  | init (hasher : K → Nat) (concurrency capacity : Nat) (grow : Bool) :
      1 ≤ concurrency →
      Reachable MaxLoadFactor
        (concurrent_lookup_table.create hasher concurrency capacity grow)
  | put {lt : concurrent_lookup_table K V} (key : K) (value : V) :
      Reachable MaxLoadFactor lt →
      Reachable MaxLoadFactor
        (concurrent_lookup_table.add_or_update MaxLoadFactor lt key value)
  | erase {lt : concurrent_lookup_table K V} (key : K) :
      Reachable MaxLoadFactor lt →
      Reachable MaxLoadFactor (lt.remove key)
  | resize {lt : concurrent_lookup_table K V} (n : Nat) :
      Reachable MaxLoadFactor lt →
      Reachable MaxLoadFactor (lt.resize n)

/-- The structural invariant of a shard state:
buckets, mutexes and budget are nonempty/positive, every entry sits in the bucket
its key hashes to, chains have pairwise-distinct keys, and every size counter
equals its chain length. -/
structure WFt (t : table_type K V) : Prop where
  len_pos : 1 ≤ t.m_buckets.length
  locks_pos : 1 ≤ t.m_locks
  budget_pos : 1 ≤ t.m_budget
  placement : ∀ (j : Nat) (h : j < t.m_buckets.length) (k : K),
      k ∈ ((t.m_buckets.get ⟨j, h⟩).m_data.map Prod.fst) →
      t.hasher k % t.m_buckets.length = j
  nodupKeys : ∀ b ∈ t.m_buckets, (b.m_data.map Prod.fst).Nodup
  sizes : ∀ b ∈ t.m_buckets, b.m_size = b.m_data.length

/-- The number of entries stored in the table. -/
def totalEntries (t : table_type K V) : Nat :=
  (t.m_buckets.map (fun b => b.m_data.length)).sum

/-! ## List-level lemmas about the chain operations -/

theorem find?_setFirst_self (k : K) (v : V) (l : List (K × V)) :
    (setFirst k v l).find? (fun e => decide (e.1 = k))
      = (l.find? (fun e => decide (e.1 = k))).map (fun e => (e.1, v)) := by
  induction l with
  | nil => rfl
  | cons e es ih =>
    by_cases he : e.1 = k
    · rw [setFirst, if_pos he]
      rw [List.find?_cons_of_pos _ (by simp [he]), List.find?_cons_of_pos _ (by simp [he])]
      rfl
    · rw [setFirst, if_neg he]
      rw [List.find?_cons_of_neg _ (by simp [he]), List.find?_cons_of_neg _ (by simp [he])]
      exact ih

theorem find?_setFirst_ne (k k1 : K) (v : V) (l : List (K × V)) (hk : ¬ k1 = k) :
    (setFirst k1 v l).find? (fun e => decide (e.1 = k))
      = l.find? (fun e => decide (e.1 = k)) := by
  induction l with
  | nil => rfl
  | cons e es ih =>
    by_cases he : e.1 = k1
    · rw [setFirst, if_pos he]
      rw [List.find?_cons_of_neg _ (by simp [he, hk]), List.find?_cons_of_neg _ (by simp [he, hk])]
    · rw [setFirst, if_neg he]
      by_cases hek : e.1 = k
      · rw [List.find?_cons_of_pos _ (by simp [hek]), List.find?_cons_of_pos _ (by simp [hek])]
      · rw [List.find?_cons_of_neg _ (by simp [hek]), List.find?_cons_of_neg _ (by simp [hek])]
        exact ih

theorem find?_eraseFirst_ne (k k1 : K) (l : List (K × V)) (hk : ¬ k1 = k) :
    (eraseFirst k1 l).find? (fun e => decide (e.1 = k))
      = l.find? (fun e => decide (e.1 = k)) := by
  induction l with
  | nil => rfl
  | cons e es ih =>
    by_cases he : e.1 = k1
    · rw [eraseFirst, if_pos he]
      rw [List.find?_cons_of_neg _ (by simp [he, hk])]
    · rw [eraseFirst, if_neg he]
      by_cases hek : e.1 = k
      · rw [List.find?_cons_of_pos _ (by simp [hek]), List.find?_cons_of_pos _ (by simp [hek])]
      · rw [List.find?_cons_of_neg _ (by simp [hek]), List.find?_cons_of_neg _ (by simp [hek])]
        exact ih

theorem find?_eraseFirst_self (k : K) (l : List (K × V))
    (h : (l.map Prod.fst).Nodup) :
    (eraseFirst k l).find? (fun e => decide (e.1 = k)) = none := by
  induction l with
  | nil => rfl
  | cons e es ih =>
    rw [List.map_cons, List.nodup_cons] at h
    by_cases he : e.1 = k
    · rw [eraseFirst, if_pos he]
      rw [List.find?_eq_none]
      intro x hx
      simp only [decide_eq_true_eq]
      intro hxk
      exact h.1 (he ▸ hxk ▸ List.mem_map_of_mem Prod.fst hx)
    · rw [eraseFirst, if_neg he]
      rw [List.find?_cons_of_neg _ (by simp [he])]
      exact ih h.2

theorem map_fst_setFirst (k : K) (v : V) (l : List (K × V)) :
    (setFirst k v l).map Prod.fst = l.map Prod.fst := by
  induction l with
  | nil => rfl
  | cons e es ih =>
    by_cases he : e.1 = k
    · rw [setFirst, if_pos he]
      rfl
    · rw [setFirst, if_neg he, List.map_cons, List.map_cons, ih]

theorem length_setFirst (k : K) (v : V) (l : List (K × V)) :
    (setFirst k v l).length = l.length := by
  induction l with
  | nil => rfl
  | cons e es ih =>
    by_cases he : e.1 = k
    · rw [setFirst, if_pos he]
      rfl
    · rw [setFirst, if_neg he, List.length_cons, List.length_cons, ih]

theorem mem_map_fst_eraseFirst (k k1 : K) (l : List (K × V))
    (h : k1 ∈ (eraseFirst k l).map Prod.fst) : k1 ∈ l.map Prod.fst := by
  induction l with
  | nil => exact h
  | cons e es ih =>
    by_cases he : e.1 = k
    · rw [eraseFirst, if_pos he] at h
      exact List.mem_map.mpr (by
        obtain ⟨x, hx, hx1⟩ := List.mem_map.mp h
        exact ⟨x, List.mem_cons_of_mem e hx, hx1⟩)
    · rw [eraseFirst, if_neg he, List.map_cons] at h
      rw [List.map_cons]
      rcases List.mem_cons.mp h with h1 | h1
      · exact List.mem_cons.mpr (Or.inl h1)
      · exact List.mem_cons.mpr (Or.inr (ih h1))

theorem nodup_map_fst_eraseFirst (k : K) (l : List (K × V))
    (h : (l.map Prod.fst).Nodup) : ((eraseFirst k l).map Prod.fst).Nodup := by
  induction l with
  | nil => exact h
  | cons e es ih =>
    rw [List.map_cons, List.nodup_cons] at h
    by_cases he : e.1 = k
    · rw [eraseFirst, if_pos he]
      exact h.2
    · rw [eraseFirst, if_neg he, List.map_cons, List.nodup_cons]
      refine ⟨fun hc => h.1 (mem_map_fst_eraseFirst k _ es hc), ih h.2⟩

theorem length_eraseFirst_of_found (k : K) (l : List (K × V))
    (h : (l.find? (fun e => decide (e.1 = k))).isSome) :
    (eraseFirst k l).length + 1 = l.length := by
  induction l with
  | nil => simp [List.find?] at h
  | cons e es ih =>
    by_cases he : e.1 = k
    · rw [eraseFirst, if_pos he]
      rfl
    · rw [eraseFirst, if_neg he, List.length_cons, List.length_cons]
      rw [List.find?_cons_of_neg _ (by simp [he])] at h
      rw [ih h]

/-! ## Bucket-level lemmas -/

theorem find_entry_isSome_iff (b : bucket_type K V) (k : K) :
    (b.find_entry k).isSome ↔ k ∈ b.m_data.map Prod.fst := by
  rw [bucket_type.find_entry]
  constructor
  · intro h
    obtain ⟨e, he⟩ := Option.isSome_iff_exists.mp h
    have hmem := List.mem_of_find?_eq_some he
    have hp := List.find?_some he
    simp only [decide_eq_true_eq] at hp
    exact hp ▸ List.mem_map_of_mem Prod.fst hmem
  · intro h
    obtain ⟨e, he, hek⟩ := List.mem_map.mp h
    rcases hf : b.m_data.find? (fun e => decide (e.1 = k)) with _ | e1
    · rw [List.find?_eq_none] at hf
      exact absurd (by simp [hek]) (hf e he)
    · rw [hf]
      rfl

theorem bucket_get_value_add_self (b : bucket_type K V) (k : K) (v : V) :
    ((b.add_or_update k v).1).get_value k = some v := by
  rw [bucket_type.add_or_update]
  by_cases hf : (b.find_entry k).isSome
  · rw [if_pos hf]
    rw [bucket_type.get_value, bucket_type.find_entry]
    show ((setFirst k v b.m_data).find? (fun e => decide (e.1 = k))).map (fun e => e.2) = some v
    rw [find?_setFirst_self]
    obtain ⟨e, he⟩ := Option.isSome_iff_exists.mp hf
    rw [bucket_type.find_entry] at he
    rw [he]
    rfl
  · rw [if_neg hf]
    rw [bucket_type.get_value, bucket_type.find_entry]
    show ((b.m_data ++ [(k, v)]).find? (fun e => decide (e.1 = k))).map (fun e => e.2) = some v
    rw [List.find?_append]
    have hnone : b.m_data.find? (fun e => decide (e.1 = k)) = none := by
      rw [bucket_type.find_entry] at hf
      exact Option.not_isSome_iff_eq_none.mp hf
    rw [hnone]
    simp [List.find?]

theorem bucket_get_value_add_ne (b : bucket_type K V) (k k1 : K) (v : V) (hk : ¬ k1 = k) :
    ((b.add_or_update k1 v).1).get_value k = b.get_value k := by
  rw [bucket_type.add_or_update]
  by_cases hf : (b.find_entry k1).isSome
  · rw [if_pos hf]
    rw [bucket_type.get_value, bucket_type.find_entry]
    show ((setFirst k1 v b.m_data).find? (fun e => decide (e.1 = k))).map (fun e => e.2)
      = b.get_value k
    rw [find?_setFirst_ne _ _ _ _ hk]
    rfl
  · rw [if_neg hf]
    rw [bucket_type.get_value, bucket_type.find_entry]
    show ((b.m_data ++ [(k1, v)]).find? (fun e => decide (e.1 = k))).map (fun e => e.2)
      = b.get_value k
    rw [List.find?_append]
    have h1 : [(k1, v)].find? (fun e => decide (e.1 = k)) = none := by
      simp [List.find?, hk]
    rw [h1, Option.or_none]
    rfl

theorem bucket_get_value_remove_ne (b : bucket_type K V) (k k1 : K) (hk : ¬ k1 = k) :
    (b.remove k1).get_value k = b.get_value k := by
  rw [bucket_type.remove]
  by_cases hf : (b.find_entry k1).isSome
  · rw [if_pos hf]
    rw [bucket_type.get_value, bucket_type.find_entry]
    show ((eraseFirst k1 b.m_data).find? (fun e => decide (e.1 = k))).map (fun e => e.2)
      = b.get_value k
    rw [find?_eraseFirst_ne _ _ _ hk]
    rfl
  · rw [if_neg hf]

theorem bucket_get_value_remove_self (b : bucket_type K V) (k : K)
    (h : (b.m_data.map Prod.fst).Nodup) : (b.remove k).get_value k = none := by
  rw [bucket_type.remove]
  by_cases hf : (b.find_entry k).isSome
  · rw [if_pos hf]
    rw [bucket_type.get_value, bucket_type.find_entry]
    show ((eraseFirst k b.m_data).find? (fun e => decide (e.1 = k))).map (fun e => e.2) = none
    rw [find?_eraseFirst_self _ _ h]
    rfl
  · rw [if_neg hf]
    rw [bucket_type.get_value]
    rw [Option.not_isSome_iff_eq_none] at hf
    rw [hf]
    rfl

theorem bucket_add_data_found (b : bucket_type K V) (k : K) (v : V)
    (hf : (b.find_entry k).isSome) :
    (b.add_or_update k v).1.m_data = setFirst k v b.m_data
    ∧ (b.add_or_update k v).1.m_size = b.m_size
    ∧ (b.add_or_update k v).2 = b.m_size := by
  rw [bucket_type.add_or_update, if_pos hf]
  exact ⟨rfl, rfl, rfl⟩

theorem bucket_add_data_fresh (b : bucket_type K V) (k : K) (v : V)
    (hf : ¬ (b.find_entry k).isSome) :
    (b.add_or_update k v).1.m_data = b.m_data ++ [(k, v)]
    ∧ (b.add_or_update k v).1.m_size = b.m_size + 1
    ∧ (b.add_or_update k v).2 = b.m_size + 1 := by
  rw [bucket_type.add_or_update, if_neg hf]
  exact ⟨rfl, rfl, rfl⟩

theorem bucket_add_map_fst_found (b : bucket_type K V) (k : K) (v : V)
    (hf : (b.find_entry k).isSome) :
    (b.add_or_update k v).1.m_data.map Prod.fst = b.m_data.map Prod.fst := by
  rw [(bucket_add_data_found b k v hf).1, map_fst_setFirst]

theorem bucket_add_map_fst_fresh (b : bucket_type K V) (k : K) (v : V)
    (hf : ¬ (b.find_entry k).isSome) :
    (b.add_or_update k v).1.m_data.map Prod.fst = b.m_data.map Prod.fst ++ [k] := by
  rw [(bucket_add_data_fresh b k v hf).1, List.map_append]
  rfl

theorem bucket_add_length_found (b : bucket_type K V) (k : K) (v : V)
    (hf : (b.find_entry k).isSome) :
    (b.add_or_update k v).1.m_data.length = b.m_data.length := by
  rw [(bucket_add_data_found b k v hf).1, length_setFirst]

theorem bucket_add_length_fresh (b : bucket_type K V) (k : K) (v : V)
    (hf : ¬ (b.find_entry k).isSome) :
    (b.add_or_update k v).1.m_data.length = b.m_data.length + 1 := by
  rw [(bucket_add_data_fresh b k v hf).1, List.length_append]
  rfl

theorem bucket_add_nodup (b : bucket_type K V) (k : K) (v : V)
    (h : (b.m_data.map Prod.fst).Nodup) :
    ((b.add_or_update k v).1.m_data.map Prod.fst).Nodup := by
  by_cases hf : (b.find_entry k).isSome
  · rw [bucket_add_map_fst_found b k v hf]
    exact h
  · rw [bucket_add_map_fst_fresh b k v hf]
    rw [List.nodup_append]
    refine ⟨h, List.nodup_singleton k, ?_⟩
    intro a ha hb
    rw [List.mem_singleton] at hb
    subst hb
    exact hf ((find_entry_isSome_iff b a).mpr ha)

theorem bucket_add_size_eq (b : bucket_type K V) (k : K) (v : V)
    (h : b.m_size = b.m_data.length) :
    (b.add_or_update k v).1.m_size = (b.add_or_update k v).1.m_data.length
    ∧ (b.add_or_update k v).2 = (b.add_or_update k v).1.m_data.length := by
  by_cases hf : (b.find_entry k).isSome
  · obtain ⟨h1, h2, h3⟩ := bucket_add_data_found b k v hf
    rw [h2, h3, bucket_add_length_found b k v hf, h]
    exact ⟨rfl, rfl⟩
  · obtain ⟨h1, h2, h3⟩ := bucket_add_data_fresh b k v hf
    rw [h2, h3, bucket_add_length_fresh b k v hf, h]
    exact ⟨rfl, rfl⟩

theorem bucket_remove_size_eq (b : bucket_type K V) (k : K)
    (h : b.m_size = b.m_data.length) :
    (b.remove k).m_size = (b.remove k).m_data.length := by
  rw [bucket_type.remove]
  by_cases hf : (b.find_entry k).isSome
  · rw [if_pos hf]
    show b.m_size - 1 = (eraseFirst k b.m_data).length
    have := length_eraseFirst_of_found k b.m_data hf
    omega
  · rw [if_neg hf]
    exact h

theorem bucket_remove_map_fst_mem (b : bucket_type K V) (k k1 : K)
    (h : k1 ∈ (b.remove k).m_data.map Prod.fst) : k1 ∈ b.m_data.map Prod.fst := by
  rw [bucket_type.remove] at h
  by_cases hf : (b.find_entry k).isSome
  · rw [if_pos hf] at h
    exact mem_map_fst_eraseFirst k k1 b.m_data h
  · rw [if_neg hf] at h
    exact h

theorem bucket_remove_nodup (b : bucket_type K V) (k : K)
    (h : (b.m_data.map Prod.fst).Nodup) : ((b.remove k).m_data.map Prod.fst).Nodup := by
  rw [bucket_type.remove]
  by_cases hf : (b.find_entry k).isSome
  · rw [if_pos hf]
    exact nodup_map_fst_eraseFirst k b.m_data h
  · rw [if_neg hf]
    exact h

theorem bucket_add_map_fst_mem (b : bucket_type K V) (k k1 : K) (v : V)
    (h : k1 ∈ (b.add_or_update k v).1.m_data.map Prod.fst) :
    k1 ∈ b.m_data.map Prod.fst ∨ k1 = k := by
  by_cases hf : (b.find_entry k).isSome
  · rw [bucket_add_map_fst_found b k v hf] at h
    exact Or.inl h
  · rw [bucket_add_map_fst_fresh b k v hf] at h
    rcases List.mem_append.mp h with h1 | h1
    · exact Or.inl h1
    · exact Or.inr (List.mem_singleton.mp h1)

theorem bucket_empty_get_value (k : K) : (emptyBucket : bucket_type K V).get_value k = none := rfl

/-! ## Table-level lemmas -/

theorem getD_of_lt {α : Type} (l : List α) (i : Nat) (d : α) (h : i < l.length) :
    l.getD i d = l.get ⟨i, h⟩ := by
  rw [List.getD_eq_getElem?_getD, List.getElem?_eq_getElem h]
  rfl

theorem set_getD_self {α : Type} (l : List α) (i : Nat) (b d : α) (h : i < l.length) :
    (l.set i b).getD i d = b := by
  rw [getD_of_lt _ _ _ (by simpa using h), List.get_eq_getElem]
  exact List.getElem_set_self _

theorem set_getD_ne {α : Type} (l : List α) (i j : Nat) (b d : α) (hij : ¬ i = j)
    (h : j < l.length) :
    (l.set i b).getD j d = l.getD j d := by
  rw [getD_of_lt _ _ _ (by simpa using h), getD_of_lt _ _ _ h, List.get_eq_getElem,
    List.get_eq_getElem]
  exact List.getElem_set_ne hij _

theorem get_bucket_index_lt (t : table_type K V) (k : K) (h : 1 ≤ t.m_buckets.length) :
    t.get_bucket_index k < t.m_buckets.length :=
  Nat.mod_lt _ (by omega)

theorem get_bucket_eq_get (t : table_type K V) (k : K) (h : 1 ≤ t.m_buckets.length) :
    t.get_bucket k = t.m_buckets.get ⟨t.get_bucket_index k, get_bucket_index_lt t k h⟩ :=
  getD_of_lt _ _ _ (get_bucket_index_lt t k h)

theorem table_add_buckets (t : table_type K V) (k : K) (v : V) :
    ((t.add_or_update k v).1).m_buckets
      = t.m_buckets.set (t.get_bucket_index k) ((t.get_bucket k).add_or_update k v).1 := rfl

theorem table_add_length (t : table_type K V) (k : K) (v : V) :
    ((t.add_or_update k v).1).m_buckets.length = t.m_buckets.length := by
  rw [table_add_buckets, List.length_set]

theorem table_add_locks (t : table_type K V) (k : K) (v : V) :
    ((t.add_or_update k v).1).m_locks = t.m_locks := rfl

theorem table_add_budget (t : table_type K V) (k : K) (v : V) :
    ((t.add_or_update k v).1).m_budget = t.m_budget := rfl

theorem table_add_hasher (t : table_type K V) (k : K) (v : V) :
    ((t.add_or_update k v).1).hasher = t.hasher := rfl

theorem table_add_index (t : table_type K V) (k : K) (v : V) (k1 : K) :
    ((t.add_or_update k v).1).get_bucket_index k1 = t.get_bucket_index k1 := by
  rw [table_type.get_bucket_index, table_type.get_bucket_index, table_add_hasher,
    table_add_length]

theorem table_remove_buckets (t : table_type K V) (k : K) :
    (t.remove k).m_buckets
      = t.m_buckets.set (t.get_bucket_index k) ((t.get_bucket k).remove k) := rfl

theorem table_remove_length (t : table_type K V) (k : K) :
    (t.remove k).m_buckets.length = t.m_buckets.length := by
  rw [table_remove_buckets, List.length_set]

theorem table_remove_locks (t : table_type K V) (k : K) :
    (t.remove k).m_locks = t.m_locks := rfl

theorem table_remove_budget (t : table_type K V) (k : K) :
    (t.remove k).m_budget = t.m_budget := rfl

theorem table_remove_hasher (t : table_type K V) (k : K) :
    (t.remove k).hasher = t.hasher := rfl

theorem table_remove_index (t : table_type K V) (k k1 : K) :
    (t.remove k).get_bucket_index k1 = t.get_bucket_index k1 := by
  rw [table_type.get_bucket_index, table_type.get_bucket_index, table_remove_hasher,
    table_remove_length]

theorem table_add_get_bucket_self (t : table_type K V) (k : K) (v : V)
    (h : 1 ≤ t.m_buckets.length) :
    ((t.add_or_update k v).1).get_bucket k = ((t.get_bucket k).add_or_update k v).1 := by
  rw [table_type.get_bucket, table_add_index, table_add_buckets]
  exact set_getD_self _ _ _ _ (get_bucket_index_lt t k h)

theorem table_get_value_add_self (t : table_type K V) (k : K) (v : V)
    (h : 1 ≤ t.m_buckets.length) :
    ((t.add_or_update k v).1).get_value k = some v := by
  rw [table_type.get_value, table_add_get_bucket_self t k v h]
  exact bucket_get_value_add_self _ _ _

theorem table_get_value_add_ne (t : table_type K V) (k1 : K) (v : V) (k : K)
    (h : 1 ≤ t.m_buckets.length) (hk : ¬ k1 = k) :
    ((t.add_or_update k1 v).1).get_value k = t.get_value k := by
  rw [table_type.get_value, table_type.get_value, table_type.get_bucket, table_add_index,
    table_add_buckets]
  by_cases hi : t.get_bucket_index k1 = t.get_bucket_index k
  · rw [← hi, set_getD_self _ _ _ _ (get_bucket_index_lt t k1 h)]
    have hb : t.get_bucket k = t.get_bucket k1 := by
      rw [table_type.get_bucket, table_type.get_bucket, hi]
    rw [← hb]
    exact bucket_get_value_add_ne _ _ _ _ hk
  · rw [set_getD_ne _ _ _ _ _ hi (get_bucket_index_lt t k h)]
    rfl

theorem table_get_value_remove_ne (t : table_type K V) (k1 k : K)
    (h : 1 ≤ t.m_buckets.length) (hk : ¬ k1 = k) :
    (t.remove k1).get_value k = t.get_value k := by
  rw [table_type.get_value, table_type.get_value, table_type.get_bucket, table_remove_index,
    table_remove_buckets]
  by_cases hi : t.get_bucket_index k1 = t.get_bucket_index k
  · rw [← hi, set_getD_self _ _ _ _ (get_bucket_index_lt t k1 h)]
    have hb : t.get_bucket k = t.get_bucket k1 := by
      rw [table_type.get_bucket, table_type.get_bucket, hi]
    rw [← hb]
    exact bucket_get_value_remove_ne _ _ _ hk
  · rw [set_getD_ne _ _ _ _ _ hi (get_bucket_index_lt t k h)]
    rfl

theorem table_get_value_remove_self (t : table_type K V) (k : K) (h : WFt t) :
    (t.remove k).get_value k = none := by
  rw [table_type.get_value, table_type.get_bucket, table_remove_index, table_remove_buckets,
    set_getD_self _ _ _ _ (get_bucket_index_lt t k h.len_pos)]
  apply bucket_get_value_remove_self
  apply h.nodupKeys
  rw [get_bucket_eq_get t k h.len_pos]
  exact List.get_mem _ _ _

/-! ## Preservation of the structural invariant -/

theorem WFt_add (t : table_type K V) (k : K) (v : V) (h : WFt t) :
    WFt ((t.add_or_update k v).1) := by
  have hlen := table_add_length t k v
  refine ⟨?_, ?_, ?_, ?_, ?_, ?_⟩
  · rw [hlen]; exact h.len_pos
  · rw [table_add_locks]; exact h.locks_pos
  · rw [table_add_budget]; exact h.budget_pos
  · intro j hj k1 hk1
    have hj0 : j < t.m_buckets.length := by rw [← hlen]; exact hj
    rw [List.get_eq_getElem] at hk1
    have hset : ((t.add_or_update k v).1).m_buckets[j]
        = (t.m_buckets.set (t.get_bucket_index k) ((t.get_bucket k).add_or_update k v).1)[j] := rfl
    rw [hset] at hk1
    rw [table_add_hasher, hlen]
    by_cases hij : t.get_bucket_index k = j
    · subst hij
      rw [List.getElem_set_self (by rw [List.length_set]; exact hj0)] at hk1
      rcases bucket_add_map_fst_mem _ _ _ _ hk1 with hold | hknew
      · apply h.placement (t.get_bucket_index k) hj0 k1
        rw [get_bucket_eq_get t k h.len_pos] at hold
        exact hold
      · subst hknew
        rfl
    · rw [List.getElem_set_ne hij (by rw [List.length_set]; exact hj0)] at hk1
      apply h.placement j hj0 k1
      exact hk1
  · intro b hb
    rw [table_add_buckets] at hb
    rcases List.mem_or_eq_of_mem_set hb with hmem | heq
    · exact h.nodupKeys b hmem
    · subst heq
      apply bucket_add_nodup
      apply h.nodupKeys
      rw [get_bucket_eq_get t k h.len_pos]
      exact List.get_mem _ _ _
  · intro b hb
    rw [table_add_buckets] at hb
    rcases List.mem_or_eq_of_mem_set hb with hmem | heq
    · exact h.sizes b hmem
    · subst heq
      apply (bucket_add_size_eq _ k v ?_).1
      apply h.sizes
      rw [get_bucket_eq_get t k h.len_pos]
      exact List.get_mem _ _ _

theorem WFt_remove (t : table_type K V) (k : K) (h : WFt t) : WFt (t.remove k) := by
  have hlen := table_remove_length t k
  refine ⟨?_, ?_, ?_, ?_, ?_, ?_⟩
  · rw [hlen]; exact h.len_pos
  · rw [table_remove_locks]; exact h.locks_pos
  · rw [table_remove_budget]; exact h.budget_pos
  · intro j hj k1 hk1
    have hj0 : j < t.m_buckets.length := by rw [← hlen]; exact hj
    rw [List.get_eq_getElem] at hk1
    have hset : (t.remove k).m_buckets[j]
        = (t.m_buckets.set (t.get_bucket_index k) ((t.get_bucket k).remove k))[j] := rfl
    rw [hset] at hk1
    rw [table_remove_hasher, hlen]
    by_cases hij : t.get_bucket_index k = j
    · subst hij
      rw [List.getElem_set_self (by rw [List.length_set]; exact hj0)] at hk1
      have hold := bucket_remove_map_fst_mem _ k k1 hk1
      apply h.placement (t.get_bucket_index k) hj0 k1
      rw [get_bucket_eq_get t k h.len_pos] at hold
      exact hold
    · rw [List.getElem_set_ne hij (by rw [List.length_set]; exact hj0)] at hk1
      apply h.placement j hj0 k1
      exact hk1
  · intro b hb
    rw [table_remove_buckets] at hb
    rcases List.mem_or_eq_of_mem_set hb with hmem | heq
    · exact h.nodupKeys b hmem
    · subst heq
      apply bucket_remove_nodup
      apply h.nodupKeys
      rw [get_bucket_eq_get t k h.len_pos]
      exact List.get_mem _ _ _
  · intro b hb
    rw [table_remove_buckets] at hb
    rcases List.mem_or_eq_of_mem_set hb with hmem | heq
    · exact h.sizes b hmem
    · subst heq
      apply bucket_remove_size_eq
      apply h.sizes
      rw [get_bucket_eq_get t k h.len_pos]
      exact List.get_mem _ _ _

theorem WFt_create (hasher : K → Nat) (concurrency buckets_count : Nat)
    (hc : 1 ≤ concurrency) (hn : 1 ≤ buckets_count) :
    WFt (table_type.create (V := V) hasher concurrency buckets_count) := by
  refine ⟨?_, ?_, ?_, ?_, ?_, ?_⟩
  · rw [table_type.create]
    simpa using hn
  · exact hc
  · exact budgetF32_pos buckets_count concurrency hn hc
  · intro j hj k hk
    rw [List.get_eq_getElem] at hk
    have : (table_type.create (V := V) hasher concurrency buckets_count).m_buckets[j]
        = emptyBucket := List.getElem_replicate _ _
    rw [this] at hk
    simp [emptyBucket] at hk
  · intro b hb
    have := List.eq_of_mem_replicate hb
    subst this
    simp [emptyBucket]
  · intro b hb
    have := List.eq_of_mem_replicate hb
    subst this
    rfl

/-! ## insertAll and the entry list of a table -/

theorem insertAll_nil (t : table_type K V) : insertAll t [] = t := rfl

theorem insertAll_append_single (t : table_type K V) (es : List (K × V)) (e : K × V) :
    insertAll t (es ++ [e]) = ((insertAll t es).add_or_update e.1 e.2).1 := by
  rw [insertAll, insertAll, List.foldl_append]
  rfl

theorem insertAll_length (t : table_type K V) (es : List (K × V)) :
    (insertAll t es).m_buckets.length = t.m_buckets.length := by
  induction es using List.reverseRecOn with
  | nil => rfl
  | append_singleton es e ih =>
    rw [insertAll_append_single, table_add_length, ih]

theorem insertAll_WFt (t : table_type K V) (es : List (K × V)) (h : WFt t) :
    WFt (insertAll t es) := by
  induction es using List.reverseRecOn with
  | nil => exact h
  | append_singleton es e ih =>
    rw [insertAll_append_single]
    exact WFt_add _ _ _ ih

theorem insertAll_get_value (t : table_type K V) (es : List (K × V)) (k : K)
    (h : 1 ≤ t.m_buckets.length) :
    (insertAll t es).get_value k
      = ((es.reverse.find? (fun e => decide (e.1 = k))).map (fun e => e.2)).or
          (t.get_value k) := by
  induction es using List.reverseRecOn with
  | nil =>
    rw [insertAll_nil]
    rfl
  | append_singleton es e ih =>
    rw [insertAll_append_single]
    have hlen : 1 ≤ (insertAll t es).m_buckets.length := by
      rw [insertAll_length]; exact h
    rw [List.reverse_append]
    by_cases he : e.1 = k
    · subst he
      rw [table_get_value_add_self _ _ _ hlen]
      have hfind : (([e].reverse ++ es.reverse).find? (fun x => decide (x.1 = e.1))) = some e := by
        show ((e :: es.reverse).find? (fun x => decide (x.1 = e.1))) = some e
        exact List.find?_cons_of_pos _ (by simp)
      rw [hfind]
      rfl
    · rw [table_get_value_add_ne _ _ _ _ hlen he, ih]
      have hfind : (([e].reverse ++ es.reverse).find? (fun x => decide (x.1 = k)))
          = es.reverse.find? (fun x => decide (x.1 = k)) := by
        show ((e :: es.reverse).find? (fun x => decide (x.1 = k)))
          = es.reverse.find? (fun x => decide (x.1 = k))
        exact List.find?_cons_of_neg _ (by simp [he])
      rw [hfind]

/-- All entries of the table, in bucket order then chain order — exactly the order
the copy loop in `resize` walks. -/
def allEntries (t : table_type K V) : List (K × V) :=
  (t.m_buckets.map (fun b => b.m_data)).flatten

theorem mem_allEntries (t : table_type K V) (e : K × V) :
    e ∈ allEntries t ↔ ∃ b ∈ t.m_buckets, e ∈ b.m_data := by
  rw [allEntries, List.mem_flatten]
  constructor
  · rintro ⟨l, hl, hel⟩
    obtain ⟨b, hb, hbl⟩ := List.mem_map.mp hl
    exact ⟨b, hb, hbl ▸ hel⟩
  · rintro ⟨b, hb, hbe⟩
    exact ⟨b.m_data, List.mem_map_of_mem _ hb, hbe⟩

theorem find?_eq_some_of_unique {α : Type} (l : List α) (p : α → Bool) (e : α)
    (he : e ∈ l) (hpe : p e = true) (huniq : ∀ x ∈ l, p x = true → x = e) :
    l.find? p = some e := by
  induction l with
  | nil => cases he
  | cons a l ih =>
    by_cases hpa : p a = true
    · rw [List.find?_cons_of_pos _ hpa, huniq a (List.mem_cons_self a l) hpa]
    · rw [List.find?_cons_of_neg _ hpa]
      rcases List.mem_cons.mp he with rfl | hel
      · exact absurd hpe hpa
      · exact ih hel (fun x hx hp => huniq x (List.mem_cons_of_mem a hx) hp)

theorem eq_of_mem_nodup_keys (l : List (K × V)) (x y : K × V)
    (h : (l.map Prod.fst).Nodup) (hx : x ∈ l) (hy : y ∈ l) (hxy : x.1 = y.1) : x = y := by
  induction l with
  | nil => cases hx
  | cons a l ih =>
    rw [List.map_cons, List.nodup_cons] at h
    rcases List.mem_cons.mp hx with rfl | hxl
    · rcases List.mem_cons.mp hy with rfl | hyl
      · rfl
      · exact absurd (hxy ▸ List.mem_map_of_mem Prod.fst hyl) h.1
    · rcases List.mem_cons.mp hy with rfl | hyl
      · exact absurd (hxy ▸ List.mem_map_of_mem Prod.fst hxl) h.1
      · exact ih h.2 hxl hyl

/-- Under the structural invariant, a key is present in a bucket only at its home
index. -/
theorem mem_bucket_home (t : table_type K V) (h : WFt t) (e : K × V) (b : bucket_type K V)
    (hb : b ∈ t.m_buckets) (he : e ∈ b.m_data) :
    b = t.m_buckets.get ⟨t.get_bucket_index e.1, get_bucket_index_lt t e.1 h.len_pos⟩ := by
  obtain ⟨⟨j, hj⟩, hget⟩ := List.mem_iff_get.mp hb
  have hkey : t.hasher e.1 % t.m_buckets.length = j := by
    apply h.placement j hj e.1
    rw [hget]
    exact List.mem_map_of_mem Prod.fst he
  have hidx : t.get_bucket_index e.1 = j := hkey
  subst hget
  subst hidx
  rfl

theorem table_get_value_eq_lastVal (t : table_type K V) (h : WFt t) (k : K) :
    t.get_value k
      = ((allEntries t).reverse.find? (fun e => decide (e.1 = k))).map (fun e => e.2) := by
  rcases hg : t.get_value k with _ | v
  · -- absent: no entry with key k anywhere
    have hnone : (allEntries t).reverse.find? (fun e => decide (e.1 = k)) = none := by
      rw [List.find?_eq_none]
      intro x hx
      simp only [decide_eq_true_eq]
      intro hxk
      rw [List.mem_reverse] at hx
      obtain ⟨b, hb, hbe⟩ := (mem_allEntries t x).mp hx
      have hhome := mem_bucket_home t h x b hb hbe
      rw [table_type.get_value, bucket_type.get_value, Option.map_eq_none'] at hg
      rw [bucket_type.find_entry, List.find?_eq_none] at hg
      apply hg x
      · rw [get_bucket_eq_get t k h.len_pos, ← hxk, ← hhome]
        exact hbe
      · simp [hxk]
    rw [hnone]
    rfl
  · -- present: the found entry is the unique entry with key k
    rw [table_type.get_value, bucket_type.get_value] at hg
    obtain ⟨ev, hfind, hev2⟩ := Option.map_eq_some'.mp hg
    rw [bucket_type.find_entry] at hfind
    have hevk : ev.1 = k := by
      have := List.find?_some hfind
      simpa using this
    have hevmem : ev ∈ (t.get_bucket k).m_data := List.mem_of_find?_eq_some hfind
    have hbmem : t.get_bucket k ∈ t.m_buckets := by
      rw [get_bucket_eq_get t k h.len_pos]
      exact List.get_mem _ _ _
    have hevall : ev ∈ (allEntries t).reverse := by
      rw [List.mem_reverse]
      exact (mem_allEntries t ev).mpr ⟨t.get_bucket k, hbmem, hevmem⟩
    have huniq : ∀ x ∈ (allEntries t).reverse, (fun e => decide (e.1 = k)) x = true → x = ev := by
      intro x hx hpx
      simp only [decide_eq_true_eq] at hpx
      rw [List.mem_reverse] at hx
      obtain ⟨b, hb, hbe⟩ := (mem_allEntries t x).mp hx
      have hhomex := mem_bucket_home t h x b hb hbe
      have hhomee := mem_bucket_home t h ev (t.get_bucket k) hbmem hevmem
      rw [hevk] at hhomee
      rw [hpx] at hhomex
      have hxev : x ∈ (t.get_bucket k).m_data := by
        rw [get_bucket_eq_get t k h.len_pos, ← hhomex]
        exact hbe
      apply eq_of_mem_nodup_keys (t.get_bucket k).m_data x ev (h.nodupKeys _ hbmem) hxev hevmem
      rw [hpx, hevk]
    rw [find?_eq_some_of_unique _ _ ev hevall (by simp [hevk]) huniq]
    show some v = some ev.2
    rw [hev2]

/-! ## Resize and lookup-table-level lemmas -/

theorem getD_replicate {α : Type} (n i : Nat) (a : α) :
    (List.replicate n a).getD i a = a := by
  by_cases h : i < n
  · rw [getD_of_lt _ _ _ (by simpa using h), List.get_eq_getElem]
    exact List.getElem_replicate _ _
  · exact List.getD_eq_default _ _ (by simpa using h)

theorem create_get_value_none (hasher : K → Nat) (concurrency buckets_count : Nat) (k : K) :
    (table_type.create (V := V) hasher concurrency buckets_count).get_value k = none := by
  rw [table_type.get_value, table_type.get_bucket]
  have hrep : (table_type.create (V := V) hasher concurrency buckets_count).m_buckets.getD
      ((table_type.create (V := V) hasher concurrency buckets_count).get_bucket_index k)
      emptyBucket = emptyBucket := getD_replicate _ _ _
  rw [hrep]
  rfl

theorem create_length (hasher : K → Nat) (concurrency buckets_count : Nat) :
    (table_type.create (V := V) hasher concurrency buckets_count).m_buckets.length
      = buckets_count := by
  rw [table_type.create]
  exact List.length_replicate _ _

theorem resize_m_table (t : table_type K V) (g fl : Bool) (n : Nat) :
    (concurrent_lookup_table.resize ⟨t, g, fl⟩ n).m_table
      = insertAll
          (table_type.create t.hasher
            (if g then min (2 * t.get_locks_size) MAX_LOCK_NUMBER else t.get_locks_size)
            (2 * t.get_buckets_size + 1))
          (allEntries t) := rfl

theorem resize_WFt (t : table_type K V) (g fl : Bool) (n : Nat) (h : WFt t) :
    WFt ((concurrent_lookup_table.resize ⟨t, g, fl⟩ n).m_table) := by
  rw [resize_m_table]
  apply insertAll_WFt
  apply WFt_create
  · have hl : 1 ≤ t.get_locks_size := h.locks_pos
    split_ifs with hg
    · have : 1 ≤ MAX_LOCK_NUMBER := by rw [MAX_LOCK_NUMBER]; omega
      omega
    · exact hl
  · omega

theorem resize_get_value (t : table_type K V) (g fl : Bool) (n : Nat) (h : WFt t) (k : K) :
    (concurrent_lookup_table.resize ⟨t, g, fl⟩ n).get_value k = t.get_value k := by
  rw [concurrent_lookup_table.get_value, resize_m_table]
  rw [insertAll_get_value _ _ _ (by rw [create_length]; omega)]
  rw [create_get_value_none, Option.or_none]
  exact (table_get_value_eq_lastVal t h k).symm

theorem lookup_add_WFt (MaxLoadFactor : Nat) (lt : concurrent_lookup_table K V)
    (k : K) (v : V) (h : WFt lt.m_table) :
    WFt (concurrent_lookup_table.add_or_update MaxLoadFactor lt k v).m_table := by
  simp only [concurrent_lookup_table.add_or_update]
  split_ifs with h1 h2
  · exact resize_WFt _ _ _ _ (WFt_add _ _ _ h)
  · exact WFt_add _ _ _ h
  · exact WFt_add _ _ _ h

theorem lookup_add_get_self (MaxLoadFactor : Nat) (lt : concurrent_lookup_table K V)
    (k : K) (v : V) (h : WFt lt.m_table) :
    (concurrent_lookup_table.add_or_update MaxLoadFactor lt k v).get_value k = some v := by
  simp only [concurrent_lookup_table.add_or_update]
  split_ifs with h1 h2
  · rw [resize_get_value _ _ _ _ (WFt_add _ _ _ h)]
    exact table_get_value_add_self _ _ _ h.len_pos
  · exact table_get_value_add_self _ _ _ h.len_pos
  · exact table_get_value_add_self _ _ _ h.len_pos

theorem lookup_add_get_ne (MaxLoadFactor : Nat) (lt : concurrent_lookup_table K V)
    (k1 : K) (v : V) (k : K) (h : WFt lt.m_table) (hk : ¬ k1 = k) :
    (concurrent_lookup_table.add_or_update MaxLoadFactor lt k1 v).get_value k
      = lt.get_value k := by
  simp only [concurrent_lookup_table.add_or_update]
  split_ifs with h1 h2
  · rw [resize_get_value _ _ _ _ (WFt_add _ _ _ h)]
    exact table_get_value_add_ne _ _ _ _ h.len_pos hk
  · exact table_get_value_add_ne _ _ _ _ h.len_pos hk
  · exact table_get_value_add_ne _ _ _ _ h.len_pos hk

theorem lookup_remove_get_ne (lt : concurrent_lookup_table K V) (k1 k : K)
    (h : WFt lt.m_table) (hk : ¬ k1 = k) :
    (lt.remove k1).get_value k = lt.get_value k :=
  table_get_value_remove_ne lt.m_table k1 k h.len_pos hk

theorem lookup_remove_get_self (lt : concurrent_lookup_table K V) (k : K)
    (h : WFt lt.m_table) :
    (lt.remove k).get_value k = none :=
  table_get_value_remove_self lt.m_table k h

theorem reach_WFt (MaxLoadFactor : Nat) (lt : concurrent_lookup_table K V)
    (h : Reachable MaxLoadFactor lt) : WFt lt.m_table := by
  induction h with
  | init hasher concurrency capacity grow hc =>
    exact WFt_create hasher concurrency (max capacity concurrency) hc
      (le_trans hc (le_max_right capacity concurrency))
  | put key value hr ih => exact lookup_add_WFt _ _ _ _ ih
  | erase key hr ih => exact WFt_remove _ _ ih
  | resize n hr ih => exact resize_WFt _ _ _ _ ih

/-! ## Entry counting -/

theorem set_get_self_eq {α : Type} (l : List α) : ∀ (i : Nat) (h : i < l.length),
    l.set i (l.get ⟨i, h⟩) = l := by
  induction l with
  | nil => intro i h; cases h
  | cons a l ih =>
    intro i h
    cases i with
    | zero => rfl
    | succ i =>
      show a :: l.set i (l.get ⟨i, _⟩) = a :: l
      rw [ih i (by simpa using h)]

theorem sum_map_set {α : Type} (l : List α) (f : α → Nat) :
    ∀ (i : Nat) (b : α) (h : i < l.length),
    ((l.set i b).map f).sum + f (l.get ⟨i, h⟩) = (l.map f).sum + f b := by
  induction l with
  | nil => intro i b h; cases h
  | cons a l ih =>
    intro i b h
    cases i with
    | zero =>
      show ((b :: l).map f).sum + f a = ((a :: l).map f).sum + f b
      rw [List.map_cons, List.map_cons, List.sum_cons, List.sum_cons]
      omega
    | succ i =>
      show ((a :: l.set i b).map f).sum + f (l.get ⟨i, _⟩) = ((a :: l).map f).sum + f b
      rw [List.map_cons, List.map_cons, List.sum_cons, List.sum_cons]
      have hi := ih i b (by simpa using h)
      omega

theorem table_get_value_none_find (t : table_type K V) (k : K)
    (hg : t.get_value k = none) : ¬ ((t.get_bucket k).find_entry k).isSome := by
  rw [table_type.get_value, bucket_type.get_value, Option.map_eq_none'] at hg
  rw [hg]
  simp

theorem table_get_value_some_find (t : table_type K V) (k : K) (v : V)
    (hg : t.get_value k = some v) : ((t.get_bucket k).find_entry k).isSome := by
  rw [table_type.get_value, bucket_type.get_value] at hg
  obtain ⟨e, he, hev⟩ := Option.map_eq_some'.mp hg
  rw [he]
  rfl

theorem totalEntries_add_found (t : table_type K V) (k : K) (v : V)
    (h : 1 ≤ t.m_buckets.length) (hf : ((t.get_bucket k).find_entry k).isSome) :
    totalEntries ((t.add_or_update k v).1) = totalEntries t := by
  rw [totalEntries, totalEntries, table_add_buckets]
  have hlt := get_bucket_index_lt t k h
  have hs := sum_map_set t.m_buckets (fun b => b.m_data.length) (t.get_bucket_index k)
    ((t.get_bucket k).add_or_update k v).1 hlt
  rw [get_bucket_eq_get t k h] at hf
  have hlen : (((t.m_buckets.get ⟨t.get_bucket_index k, hlt⟩).add_or_update k v).1).m_data.length
      = (t.m_buckets.get ⟨t.get_bucket_index k, hlt⟩).m_data.length :=
    bucket_add_length_found _ _ _ hf
  rw [get_bucket_eq_get t k h] at hs ⊢
  omega

theorem totalEntries_add_fresh (t : table_type K V) (k : K) (v : V)
    (h : 1 ≤ t.m_buckets.length) (hf : ¬ ((t.get_bucket k).find_entry k).isSome) :
    totalEntries ((t.add_or_update k v).1) = totalEntries t + 1 := by
  rw [totalEntries, totalEntries, table_add_buckets]
  have hlt := get_bucket_index_lt t k h
  have hs := sum_map_set t.m_buckets (fun b => b.m_data.length) (t.get_bucket_index k)
    ((t.get_bucket k).add_or_update k v).1 hlt
  rw [get_bucket_eq_get t k h] at hf
  have hlen : (((t.m_buckets.get ⟨t.get_bucket_index k, hlt⟩).add_or_update k v).1).m_data.length
      = (t.m_buckets.get ⟨t.get_bucket_index k, hlt⟩).m_data.length + 1 :=
    bucket_add_length_fresh _ _ _ hf
  rw [get_bucket_eq_get t k h] at hs ⊢
  omega

theorem nodup_flatten_of (L : List (List K)) (h1 : ∀ l ∈ L, l.Nodup)
    (h2 : L.Pairwise List.Disjoint) : L.flatten.Nodup := by
  induction L with
  | nil => exact List.nodup_nil
  | cons l ls ih =>
    rw [List.flatten_cons, List.nodup_append]
    obtain ⟨hhead, htail⟩ := List.pairwise_cons.mp h2
    refine ⟨h1 l (List.mem_cons_self l ls), ih (fun x hx => h1 x (List.mem_cons_of_mem _ hx)) htail, ?_⟩
    intro a hal haf
    obtain ⟨l1, hl1, hal1⟩ := List.mem_flatten.mp haf
    exact hhead l1 hl1 hal hal1

theorem allEntries_keys_nodup (t : table_type K V) (h : WFt t) :
    ((allEntries t).map Prod.fst).Nodup := by
  rw [allEntries, List.map_flatten, List.map_map]
  apply nodup_flatten_of
  · intro l hl
    obtain ⟨b, hb, hbl⟩ := List.mem_map.mp hl
    exact hbl ▸ h.nodupKeys b hb
  · rw [List.pairwise_iff_getElem]
    intro i j hi hj hij
    intro a hai haj
    rw [List.getElem_map] at hai haj
    have hleni : i < t.m_buckets.length := by simpa using hi
    have hlenj : j < t.m_buckets.length := by simpa using hj
    have h1 : t.hasher a % t.m_buckets.length = i := h.placement i hleni a hai
    have h2 : t.hasher a % t.m_buckets.length = j := h.placement j hlenj a haj
    omega

theorem insertAll_cons (t : table_type K V) (e : K × V) (es : List (K × V)) :
    insertAll t (e :: es) = insertAll ((t.add_or_update e.1 e.2).1) es := rfl

theorem insertAll_total (es : List (K × V)) : ∀ (t : table_type K V),
    1 ≤ t.m_buckets.length → (es.map Prod.fst).Nodup →
    (∀ e ∈ es, t.get_value e.1 = none) →
    totalEntries (insertAll t es) = totalEntries t + es.length := by
  induction es with
  | nil =>
    intro t h1 h2 h3
    rw [insertAll_nil]
    rfl
  | cons e es ih =>
    intro t h1 h2 h3
    rw [List.map_cons, List.nodup_cons] at h2
    rw [insertAll_cons]
    rw [ih _ (by rw [table_add_length]; exact h1) h2.2 ?_]
    · rw [totalEntries_add_fresh _ _ _ h1
        (table_get_value_none_find _ _ (h3 e (List.mem_cons_self e es)))]
      rw [List.length_cons]
      omega
    · intro e1 he1
      have hne : ¬ e.1 = e1.1 := by
        intro hc
        exact h2.1 (hc ▸ List.mem_map_of_mem Prod.fst he1)
      rw [table_get_value_add_ne _ _ _ _ h1 hne]
      exact h3 e1 (List.mem_cons_of_mem e he1)

theorem totalEntries_create (hasher : K → Nat) (concurrency buckets_count : Nat) :
    totalEntries (table_type.create (V := V) hasher concurrency buckets_count) = 0 := by
  rw [totalEntries, table_type.create]
  show ((List.replicate buckets_count (emptyBucket (K := K) (V := V))).map
    (fun b => b.m_data.length)).sum = 0
  rw [List.map_replicate]
  show (List.replicate buckets_count 0).sum = 0
  rw [List.sum_replicate]
  simp

theorem totalEntries_eq_allEntries_length (t : table_type K V) :
    totalEntries t = (allEntries t).length := by
  rw [totalEntries, allEntries, List.length_flatten, List.map_map]
  rfl

theorem resize_total (t : table_type K V) (g fl : Bool) (n : Nat) (h : WFt t) :
    totalEntries ((concurrent_lookup_table.resize ⟨t, g, fl⟩ n).m_table) = totalEntries t := by
  rw [resize_m_table]
  rw [insertAll_total _ _ (by rw [create_length]; omega)
    (allEntries_keys_nodup t h) (fun e _ => create_get_value_none _ _ _ _)]
  rw [totalEntries_create, totalEntries_eq_allEntries_length]
  omega

theorem lookup_add_total_found (MaxLoadFactor : Nat) (lt : concurrent_lookup_table K V)
    (k : K) (v : V) (h : WFt lt.m_table)
    (hf : ((lt.m_table.get_bucket k).find_entry k).isSome) :
    totalEntries (concurrent_lookup_table.add_or_update MaxLoadFactor lt k v).m_table
      = totalEntries lt.m_table := by
  simp only [concurrent_lookup_table.add_or_update]
  split_ifs with h1 h2
  · rw [resize_total _ _ _ _ (WFt_add _ _ _ h)]
    exact totalEntries_add_found _ _ _ h.len_pos hf
  · exact totalEntries_add_found _ _ _ h.len_pos hf
  · exact totalEntries_add_found _ _ _ h.len_pos hf

theorem lookup_remove_absent_id (lt : concurrent_lookup_table K V) (k : K)
    (h : WFt lt.m_table) (hg : lt.get_value k = none) : lt.remove k = lt := by
  have hfind := table_get_value_none_find lt.m_table k hg
  have htab : lt.m_table.remove k = lt.m_table := by
    have hb : (lt.m_table.get_bucket k).remove k = lt.m_table.get_bucket k := by
      rw [bucket_type.remove, if_neg hfind]
    rw [table_type.remove, hb, get_bucket_eq_get lt.m_table k h.len_pos,
      set_get_self_eq lt.m_table.m_buckets _ (get_bucket_index_lt lt.m_table k h.len_pos)]
  rw [concurrent_lookup_table.remove, htab]

/-! ## Preservation along operation sequences -/

theorem run_cons (MaxLoadFactor : Nat) (lt : concurrent_lookup_table K V)
    (op : Op K V) (ops : List (Op K V)) :
    run MaxLoadFactor lt (op :: ops) = run MaxLoadFactor (runOp MaxLoadFactor lt op) ops := rfl

theorem runOp_preserves (MaxLoadFactor : Nat) (k : K) (v : V) (op : Op K V)
    (lt : concurrent_lookup_table K V) (hw : WFt lt.m_table)
    (hv : lt.get_value k = some v) (hop : untouches op k) :
    (runOp MaxLoadFactor lt op).get_value k = some v
    ∧ WFt (runOp MaxLoadFactor lt op).m_table := by
  cases op with
  | put k1 v1 =>
    have hk : ¬ k1 = k := hop
    constructor
    · rw [runOp, lookup_add_get_ne _ _ _ _ _ hw hk]
      exact hv
    · exact lookup_add_WFt _ _ _ _ hw
  | erase k1 =>
    have hk : ¬ k1 = k := hop
    constructor
    · rw [runOp, lookup_remove_get_ne _ _ _ hw hk]
      exact hv
    · exact WFt_remove _ _ hw
  | resize =>
    constructor
    · show (lt.resize (2 * lt.m_table.get_buckets_size + 1)).get_value k = some v
      rw [resize_get_value lt.m_table lt.m_grow_mutexes_on_resize lt.m_resize_in_process
        (2 * lt.m_table.get_buckets_size + 1) hw]
      exact hv
    · show WFt (lt.resize (2 * lt.m_table.get_buckets_size + 1)).m_table
      exact resize_WFt _ _ _ _ hw

theorem run_preserves_get (MaxLoadFactor : Nat) (k : K) (v : V) (ops : List (Op K V)) :
    ∀ (lt : concurrent_lookup_table K V), WFt lt.m_table → lt.get_value k = some v →
    (∀ op ∈ ops, untouches op k) →
    (run MaxLoadFactor lt ops).get_value k = some v
    ∧ WFt (run MaxLoadFactor lt ops).m_table := by
  induction ops with
  | nil =>
    intro lt hw hv hops
    exact ⟨hv, hw⟩
  | cons op ops ih =>
    intro lt hw hv hops
    rw [run_cons]
    obtain ⟨hv1, hw1⟩ := runOp_preserves MaxLoadFactor k v op lt hw hv
      (hops op (List.mem_cons_self _ _))
    exact ih _ hw1 hv1 (fun o ho => hops o (List.mem_cons_of_mem _ ho))

theorem countP_key_le_one (l : List (K × V)) (k : K) (h : (l.map Prod.fst).Nodup) :
    l.countP (fun e => decide (e.1 = k)) ≤ 1 := by
  induction l with
  | nil => simp
  | cons e es ih =>
    rw [List.countP_cons]
    rw [List.map_cons, List.nodup_cons] at h
    by_cases he : e.1 = k
    · have hzero : es.countP (fun e => decide (e.1 = k)) = 0 := by
        rw [List.countP_eq_zero]
        intro x hx
        simp only [decide_eq_true_eq]
        intro hxk
        exact h.1 (he ▸ hxk ▸ List.mem_map_of_mem Prod.fst hx)
      rw [hzero, if_pos (by simp [he])]
    · rw [if_neg (by simp [he])]
      have := ih h.2
      omega

/-! ## Facts used by the overwrite claim -/

theorem table_overwrite_facts (t : table_type K V) (k : K) (v : V) (h : WFt t)
    (hf : ((t.get_bucket k).find_entry k).isSome) :
    (t.add_or_update k v).2.current_bucket_size = ((t.add_or_update k v).1.get_bucket k).m_size
    ∧ ((t.add_or_update k v).1.get_bucket k).m_size = (t.get_bucket k).m_size
    ∧ ((t.add_or_update k v).1.get_bucket k).m_data.length = (t.get_bucket k).m_data.length
    ∧ (t.add_or_update k v).2.current_bucket_size
        = ((t.add_or_update k v).1.get_bucket k).m_data.length := by
  obtain ⟨hd1, hd2, hd3⟩ := bucket_add_data_found (t.get_bucket k) k v hf
  have hgb := table_add_get_bucket_self t k v h.len_pos
  have hsz : (t.get_bucket k).m_size = (t.get_bucket k).m_data.length := by
    apply h.sizes
    rw [get_bucket_eq_get t k h.len_pos]
    exact List.get_mem _ _ _
  have hlen := bucket_add_length_found (t.get_bucket k) k v hf
  have hcbs : (t.add_or_update k v).2.current_bucket_size
      = ((t.get_bucket k).add_or_update k v).2 := rfl
  refine ⟨?_, ?_, ?_, ?_⟩
  · rw [hcbs, hd3, hgb, hd2]
  · rw [hgb, hd2]
  · rw [hgb]
    exact hlen
  · rw [hcbs, hd3, hgb, hlen, hsz]

/-! ## The claims -/

/-- Claim C1: the claim says a put that pushes a bucket past `MaxLoadFactor` starts a
resize exactly when the `m_resize_in_process` test-and-set reports the flag was
previously clear, and never when a resize is already in progress.  The code has the
condition inverted (`size > MaxLoadFactor && test_and_set(...)` resizes when the
*previous* value was set): on a fresh single-bucket table with `MaxLoadFactor = 4`
(all keys hashing to bucket 0), the fifth put trips the threshold with the flag
clear, sets the flag and does *not* resize (the bucket count stays 1, where the
claim demands 2·1+1 = 3), while the sixth put — tripping the threshold with a
"resize already in progress" — *does* start one (the bucket count becomes 3). -/
theorem C1_resize_trigger_inverted :
    ((run 4 (concurrent_lookup_table.create (V := Nat) (fun _ : Nat => 0) 1 1 true)
        [Op.put 0 0, Op.put 1 1, Op.put 2 2, Op.put 3 3, Op.put 4 4]).m_resize_in_process = true
      ∧ (run 4 (concurrent_lookup_table.create (V := Nat) (fun _ : Nat => 0) 1 1 true)
        [Op.put 0 0, Op.put 1 1, Op.put 2 2, Op.put 3 3, Op.put 4 4]).m_table.m_buckets.length
          = 1)
    ∧ (run 4 (concurrent_lookup_table.create (V := Nat) (fun _ : Nat => 0) 1 1 true)
        [Op.put 0 0, Op.put 1 1, Op.put 2 2, Op.put 3 3, Op.put 4 4,
          Op.put 5 5]).m_table.m_buckets.length = 3 := by
  exact ⟨⟨by decide, by decide⟩, by decide⟩

/-- Claim C2: the claim says `shard_index(k) = bucket_index(k) / budget < S` in every
reachable shard state.  It fails on the initial state of
`concurrent_lookup_table(1, 16777217)` (16777217 = 2^24 + 1 buckets, one mutex):
`float(16777217)` rounds to 2^24, so the stored budget is 16777216 instead of the
exact ceiling 16777217, and a key hashing to bucket 16777216 gets mutex index
16777216 / 16777216 = 1 = S — `table_type::lock` then reads `m_locks[1]` past the
end of the one-element mutex vector. -/
theorem C2_shard_index_past_mutex_vector :
    (concurrent_lookup_table.create (V := Nat) (fun _ : Nat => 16777216) 1 16777217
        true).m_table.get_mutex_index 0 = 1
    ∧ (concurrent_lookup_table.create (V := Nat) (fun _ : Nat => 16777216) 1 16777217
        true).m_table.get_locks_size = 1 := by
  have hmax : (max 16777217 1 : Nat) = 16777217 := by omega
  constructor
  · rw [table_type.get_mutex_index, table_type.get_bucket_index]
    have hlen : (concurrent_lookup_table.create (V := Nat) (fun _ : Nat => 16777216) 1 16777217
        true).m_table.m_buckets.length = 16777217 := by
      show (table_type.create (V := Nat) (fun _ : Nat => 16777216) 1
        (max 16777217 1)).m_buckets.length = 16777217
      rw [create_length, hmax]
    have hbud : (concurrent_lookup_table.create (V := Nat) (fun _ : Nat => 16777216) 1 16777217
        true).m_table.m_budget = 16777216 := by
      show budgetF32 (max 16777217 1) 1 = 16777216
      rw [hmax]
      exact budgetF32_16777217_1
    rw [hlen, hbud]
    show 16777216 % 16777217 / 16777216 = 1
    norm_num
  · rfl

/-- Claim C3: the claim says the stored budget equals the exact integer ceiling
`⌈B / S⌉` for every `B ≥ 1`, `S ≥ 1`.  The source computes it through `float`
(binary32) arithmetic, and at `B = 16777217 = 2^24 + 1`, `S = 1` the conversion
`float(B)` rounds (tie to even) down to 2^24: the stored budget is 16777216 while
the exact ceiling `(B + S - 1) / S` is 16777217. -/
theorem C3_budget_not_exact_ceiling :
    (table_type.create (K := Nat) (V := Nat) (fun n : Nat => n) 1 16777217).m_budget = 16777216
    ∧ (16777217 + 1 - 1) / 1 = 16777217 := by
  constructor
  · show budgetF32 16777217 1 = 16777216
    exact budgetF32_16777217_1
  · norm_num

/-- Claim C4: if `add_or_update(k, v)` is the only operation that modifies `k` and no
`remove(k)` follows, every later `get_value(k)` returns `v`, across any number of
resizes (each resize re-inserts every entry of the old shard state). -/
theorem C4_put_survives_untouched_ops (MaxLoadFactor : Nat)
    (lt : concurrent_lookup_table K V) (k : K) (v : V) (ops : List (Op K V))
    (hreach : Reachable MaxLoadFactor lt) (hops : ∀ op ∈ ops, untouches op k) :
    (run MaxLoadFactor (concurrent_lookup_table.add_or_update MaxLoadFactor lt k v)
      ops).get_value k = some v := by
  have hw := reach_WFt _ _ hreach
  exact (run_preserves_get MaxLoadFactor k v ops _ (lookup_add_WFt _ _ _ _ hw)
    (lookup_add_get_self _ _ _ _ hw) hops).1

theorem C4_witness :
    (run 4 (concurrent_lookup_table.add_or_update 4
        (concurrent_lookup_table.create (V := Nat) (fun n : Nat => n) 1 4 true) 0 7)
      [Op.put 1 1, Op.resize, Op.erase 1]).get_value 0 = some 7 :=
  C4_put_survives_untouched_ops 4 _ 0 7 _
    (Reachable.init (fun n : Nat => n) 1 4 true (by decide))
    (by intro op hop; fin_cases hop <;> simp [untouches])

/-- Claim C5: after `put(k, v₁); put(k, v₂)` the lookup returns `v₂`; the second put
overwrites in place, so the logical size (total entry count) does not grow, the
bucket keeps its `m_size` and its chain length, and the size the bucket operation
returns is the post-operation bucket size (which equals the true chain length). -/
theorem C5_overwrite_semantics (MaxLoadFactor : Nat) (lt : concurrent_lookup_table K V)
    (k : K) (v1 v2 : V) (h : Reachable MaxLoadFactor lt) :
    (concurrent_lookup_table.add_or_update MaxLoadFactor
        (concurrent_lookup_table.add_or_update MaxLoadFactor lt k v1) k v2).get_value k
      = some v2
    ∧ totalEntries (concurrent_lookup_table.add_or_update MaxLoadFactor
          (concurrent_lookup_table.add_or_update MaxLoadFactor lt k v1) k v2).m_table
        = totalEntries (concurrent_lookup_table.add_or_update MaxLoadFactor lt k v1).m_table
    ∧ ((concurrent_lookup_table.add_or_update MaxLoadFactor lt k v1).m_table.add_or_update
          k v2).2.current_bucket_size
        = (((concurrent_lookup_table.add_or_update MaxLoadFactor lt k v1).m_table.add_or_update
          k v2).1.get_bucket k).m_size
    ∧ (((concurrent_lookup_table.add_or_update MaxLoadFactor lt k v1).m_table.add_or_update
          k v2).1.get_bucket k).m_size
        = ((concurrent_lookup_table.add_or_update MaxLoadFactor lt
          k v1).m_table.get_bucket k).m_size
    ∧ (((concurrent_lookup_table.add_or_update MaxLoadFactor lt k v1).m_table.add_or_update
          k v2).1.get_bucket k).m_data.length
        = ((concurrent_lookup_table.add_or_update MaxLoadFactor lt
          k v1).m_table.get_bucket k).m_data.length
    ∧ ((concurrent_lookup_table.add_or_update MaxLoadFactor lt k v1).m_table.add_or_update
          k v2).2.current_bucket_size
        = (((concurrent_lookup_table.add_or_update MaxLoadFactor lt k v1).m_table.add_or_update
          k v2).1.get_bucket k).m_data.length := by
  have hw := reach_WFt _ _ h
  have hw1 : WFt (concurrent_lookup_table.add_or_update MaxLoadFactor lt k v1).m_table :=
    lookup_add_WFt _ _ _ _ hw
  have hv1 : (concurrent_lookup_table.add_or_update MaxLoadFactor lt k v1).get_value k
      = some v1 := lookup_add_get_self _ _ _ _ hw
  have hfound := table_get_value_some_find _ _ _ hv1
  obtain ⟨hc1, hc2, hc3, hc4⟩ :=
    table_overwrite_facts (concurrent_lookup_table.add_or_update MaxLoadFactor lt k v1).m_table
      k v2 hw1 hfound
  exact ⟨lookup_add_get_self _ _ _ _ hw1,
    lookup_add_total_found _ _ _ _ hw1 hfound, hc1, hc2, hc3, hc4⟩

theorem C5_witness :
    (concurrent_lookup_table.add_or_update 4
        (concurrent_lookup_table.add_or_update 4
          (concurrent_lookup_table.create (V := Nat) (fun n : Nat => n) 2 4 true) 1 10)
        1 20).get_value 1 = some 20
    ∧ totalEntries (concurrent_lookup_table.add_or_update 4
          (concurrent_lookup_table.add_or_update 4
            (concurrent_lookup_table.create (V := Nat) (fun n : Nat => n) 2 4 true) 1 10)
          1 20).m_table
        = totalEntries (concurrent_lookup_table.add_or_update 4
            (concurrent_lookup_table.create (V := Nat) (fun n : Nat => n) 2 4 true)
            1 10).m_table
    ∧ ((concurrent_lookup_table.add_or_update 4
          (concurrent_lookup_table.create (V := Nat) (fun n : Nat => n) 2 4 true)
          1 10).m_table.add_or_update 1 20).2.current_bucket_size
        = (((concurrent_lookup_table.add_or_update 4
          (concurrent_lookup_table.create (V := Nat) (fun n : Nat => n) 2 4 true)
          1 10).m_table.add_or_update 1 20).1.get_bucket 1).m_size
    ∧ (((concurrent_lookup_table.add_or_update 4
          (concurrent_lookup_table.create (V := Nat) (fun n : Nat => n) 2 4 true)
          1 10).m_table.add_or_update 1 20).1.get_bucket 1).m_size
        = ((concurrent_lookup_table.add_or_update 4
          (concurrent_lookup_table.create (V := Nat) (fun n : Nat => n) 2 4 true)
          1 10).m_table.get_bucket 1).m_size
    ∧ (((concurrent_lookup_table.add_or_update 4
          (concurrent_lookup_table.create (V := Nat) (fun n : Nat => n) 2 4 true)
          1 10).m_table.add_or_update 1 20).1.get_bucket 1).m_data.length
        = ((concurrent_lookup_table.add_or_update 4
          (concurrent_lookup_table.create (V := Nat) (fun n : Nat => n) 2 4 true)
          1 10).m_table.get_bucket 1).m_data.length
    ∧ ((concurrent_lookup_table.add_or_update 4
          (concurrent_lookup_table.create (V := Nat) (fun n : Nat => n) 2 4 true)
          1 10).m_table.add_or_update 1 20).2.current_bucket_size
        = (((concurrent_lookup_table.add_or_update 4
          (concurrent_lookup_table.create (V := Nat) (fun n : Nat => n) 2 4 true)
          1 10).m_table.add_or_update 1 20).1.get_bucket 1).m_data.length :=
  C5_overwrite_semantics 4 _ 1 10 20
    (Reachable.init (fun n : Nat => n) 2 4 true (by decide))

/-- Claim C6: `put(k, v); remove(k); get(k)` is absent; removing an absent key is a
silent no-op that leaves the table unchanged, hence `remove(k); remove(k)` is the
same state as `remove(k)`. -/
theorem C6_remove_semantics (MaxLoadFactor : Nat) (lt : concurrent_lookup_table K V)
    (k : K) (v : V) (h : Reachable MaxLoadFactor lt) :
    ((concurrent_lookup_table.add_or_update MaxLoadFactor lt k v).remove k).get_value k = none
    ∧ (lt.get_value k = none → lt.remove k = lt)
    ∧ (lt.remove k).remove k = lt.remove k := by
  have hw := reach_WFt _ _ h
  refine ⟨?_, ?_, ?_⟩
  · exact lookup_remove_get_self _ _ (lookup_add_WFt _ _ _ _ hw)
  · intro hg
    exact lookup_remove_absent_id lt k hw hg
  · exact lookup_remove_absent_id (lt.remove k) k (WFt_remove _ _ hw)
      (lookup_remove_get_self lt k hw)

theorem C6_witness :
    ((concurrent_lookup_table.add_or_update 4
        (concurrent_lookup_table.create (V := Nat) (fun n : Nat => n) 2 4 true) 3 5).remove
      3).get_value 3 = none
    ∧ ((concurrent_lookup_table.create (V := Nat) (fun n : Nat => n) 2 4 true).get_value 3
        = none →
      (concurrent_lookup_table.create (V := Nat) (fun n : Nat => n) 2 4 true).remove 3
        = concurrent_lookup_table.create (V := Nat) (fun n : Nat => n) 2 4 true)
    ∧ ((concurrent_lookup_table.create (V := Nat) (fun n : Nat => n) 2 4 true).remove 3).remove 3
        = (concurrent_lookup_table.create (V := Nat) (fun n : Nat => n) 2 4 true).remove 3 :=
  C6_remove_semantics 4 _ 3 5 (Reachable.init (fun n : Nat => n) 2 4 true (by decide))

/-- Claim C7: in every reachable state each key lives in at most one bucket (two
buckets both containing it must be the same index) and each bucket holds at most
one entry with a given key. -/
theorem C7_key_uniqueness (MaxLoadFactor : Nat) (lt : concurrent_lookup_table K V)
    (h : Reachable MaxLoadFactor lt) (k : K) :
    (∀ (j1 j2 : Nat) (h1 : j1 < lt.m_table.m_buckets.length)
      (h2 : j2 < lt.m_table.m_buckets.length),
      k ∈ ((lt.m_table.m_buckets.get ⟨j1, h1⟩).m_data.map Prod.fst) →
      k ∈ ((lt.m_table.m_buckets.get ⟨j2, h2⟩).m_data.map Prod.fst) → j1 = j2)
    ∧ ∀ b ∈ lt.m_table.m_buckets, b.m_data.countP (fun e => decide (e.1 = k)) ≤ 1 := by
  have hw := reach_WFt _ _ h
  constructor
  · intro j1 j2 h1 h2 hk1 hk2
    have e1 := hw.placement j1 h1 k hk1
    have e2 := hw.placement j2 h2 k hk2
    omega
  · intro b hb
    exact countP_key_le_one b.m_data k (hw.nodupKeys b hb)

theorem C7_witness :
    (∀ (j1 j2 : Nat)
      (h1 : j1 < (concurrent_lookup_table.create (V := Nat) (fun n : Nat => n) 2 4
        true).m_table.m_buckets.length)
      (h2 : j2 < (concurrent_lookup_table.create (V := Nat) (fun n : Nat => n) 2 4
        true).m_table.m_buckets.length),
      (0 : Nat) ∈ (((concurrent_lookup_table.create (V := Nat) (fun n : Nat => n) 2 4
        true).m_table.m_buckets.get ⟨j1, h1⟩).m_data.map Prod.fst) →
      (0 : Nat) ∈ (((concurrent_lookup_table.create (V := Nat) (fun n : Nat => n) 2 4
        true).m_table.m_buckets.get ⟨j2, h2⟩).m_data.map Prod.fst) → j1 = j2)
    ∧ ∀ b ∈ (concurrent_lookup_table.create (V := Nat) (fun n : Nat => n) 2 4
        true).m_table.m_buckets,
      b.m_data.countP (fun e => decide (e.1 = (0 : Nat))) ≤ 1 :=
  C7_key_uniqueness 4 _ (Reachable.init (fun n : Nat => n) 2 4 true (by decide)) 0

/-- Claim C8: every bucket's `m_size` is zero at shard-state construction (the
`m_buckets{n}` vector constructor value-initialises the buckets, which
zero-initialises the member), it equals the bucket's chain length in every
reachable state, and the size `add_or_update` returns is the true post-operation
chain length of the key's bucket. -/
theorem C8_size_counter (MaxLoadFactor : Nat) (lt : concurrent_lookup_table K V)
    (h : Reachable MaxLoadFactor lt) (hasher : K → Nat) (concurrency buckets_count : Nat)
    (key : K) (value : V) :
    (∀ b ∈ (table_type.create (V := V) hasher concurrency buckets_count).m_buckets,
      b.m_size = 0)
    ∧ (∀ b ∈ lt.m_table.m_buckets, b.m_size = b.m_data.length)
    ∧ (lt.m_table.add_or_update key value).2.current_bucket_size
        = ((lt.m_table.add_or_update key value).1.get_bucket key).m_data.length := by
  have hw := reach_WFt _ _ h
  refine ⟨?_, hw.sizes, ?_⟩
  · intro b hb
    have hbe : b = emptyBucket := List.eq_of_mem_replicate hb
    rw [hbe]
    rfl
  · have hsz : (lt.m_table.get_bucket key).m_size
        = (lt.m_table.get_bucket key).m_data.length := by
      apply hw.sizes
      rw [get_bucket_eq_get lt.m_table key hw.len_pos]
      exact List.get_mem _ _ _
    rw [table_add_get_bucket_self lt.m_table key value hw.len_pos]
    exact (bucket_add_size_eq (lt.m_table.get_bucket key) key value hsz).2

theorem C8_witness :
    (∀ b ∈ (table_type.create (V := Nat) (fun n : Nat => n) 2 4).m_buckets, b.m_size = 0)
    ∧ (∀ b ∈ (concurrent_lookup_table.create (V := Nat) (fun n : Nat => n) 2 4
        true).m_table.m_buckets, b.m_size = b.m_data.length)
    ∧ ((concurrent_lookup_table.create (V := Nat) (fun n : Nat => n) 2 4
          true).m_table.add_or_update 3 9).2.current_bucket_size
        = (((concurrent_lookup_table.create (V := Nat) (fun n : Nat => n) 2 4
          true).m_table.add_or_update 3 9).1.get_bucket 3).m_data.length :=
  C8_size_counter 4 _ (Reachable.init (fun n : Nat => n) 2 4 true (by decide))
    (fun n : Nat => n) 2 4 3 9

/-- Claim C9: the constructor builds the shard state with exactly
`max(initial_capacity, initial_shards)` buckets; in particular, when the capacity is
below the shard count, the bucket count is exactly the shard count. -/
theorem C9_constructor_bucket_count (hasher : K → Nat) (concurrency capacity : Nat)
    (grow : Bool) (h : 1 ≤ concurrency) :
    (concurrent_lookup_table.create (V := V) hasher concurrency capacity
        grow).m_table.m_buckets.length = max capacity concurrency
    ∧ (capacity < concurrency →
      (concurrent_lookup_table.create (V := V) hasher concurrency capacity
        grow).m_table.m_buckets.length = concurrency) := by
  constructor
  · exact create_length hasher concurrency (max capacity concurrency)
  · intro hlt
    show (table_type.create (V := V) hasher concurrency
      (max capacity concurrency)).m_buckets.length = concurrency
    rw [create_length]
    omega

theorem C9_witness :
    (concurrent_lookup_table.create (V := Nat) (fun n : Nat => n) 2 1
        true).m_table.m_buckets.length = max 1 2
    ∧ (1 < 2 →
      (concurrent_lookup_table.create (V := Nat) (fun n : Nat => n) 2 1
        true).m_table.m_buckets.length = 2) :=
  C9_constructor_bucket_count (fun n : Nat => n) 2 1 true (by decide)

/-- Claim C10: from any constructor call with at least one shard, every reachable
state keeps at least one bucket and a positive budget, so the `% bucket_count` in
`get_bucket_index` and the `/ budget` in `get_mutex_index` never divide by zero. -/
theorem C10_no_zero_divisors (MaxLoadFactor : Nat) (lt : concurrent_lookup_table K V)
    (h : Reachable MaxLoadFactor lt) :
    1 ≤ lt.m_table.m_buckets.length ∧ 1 ≤ lt.m_table.m_budget :=
  ⟨(reach_WFt _ _ h).len_pos, (reach_WFt _ _ h).budget_pos⟩

theorem C10_witness :
    1 ≤ (concurrent_lookup_table.create (V := Nat) (fun n : Nat => n) 1 1
        true).m_table.m_buckets.length
    ∧ 1 ≤ (concurrent_lookup_table.create (V := Nat) (fun n : Nat => n) 1 1
        true).m_table.m_budget :=
  C10_no_zero_divisors 4 _ (Reachable.init (fun n : Nat => n) 1 1 true (by decide))
